import Mathlib

set_option maxRecDepth 20000

/-!
Verification of the braillegl software rasterizer.

Shallow embedding conventions:
- `f32` values are modelled as exact rationals (`ℚ`); `f32::sqrt` is modelled by
  the rational square root `ratSqrt` (proved below to coincide with Mathlib's
  `Rat.sqrt`), which agrees with the real square root whenever the radicand is
  a perfect rational square - all concrete inputs below are chosen so that
  every square root taken is exact.
- In the `ℚ` idealization `1 / 0 = 0`; the one claim that is genuinely about
  IEEE-754 infinity/NaN behaviour (`normalize` of the zero vector) is settled
  against a dedicated IEEE-style float model `FF` defined further down.
- Operations that can panic in Rust (out-of-range indexing, overflowing `u8`
  addition) return `Option`, with `none` modelling the panic.
- Casts: `f32 as u8` / `as usize` / `as i32` saturate below (for `u8` and
  `i32` also above) and truncate toward zero, as in Rust.
-/

/-- Fuel-driven digit-by-digit integer square root (recursion on the base-4
digits), structurally recursive so it is reducible by `rfl`. -/
def sqrtF : ℕ → ℕ → ℕ
  | _, 0 => 0
  | n, f + 1 =>
    if n = 0 then 0
    else
      let r := sqrtF (n / 4) f
      if (2 * r + 1) * (2 * r + 1) ≤ n then 2 * r + 1 else 2 * r

/-- Integer square root (rounds down), reducible by `rfl`. -/
def natSqrt (n : ℕ) : ℕ := sqrtF n n

theorem sqrtF_eq (f : ℕ) : ∀ n, n ≤ f → sqrtF n f = Nat.sqrt n := by
  induction f with
  | zero =>
    intro n hn
    have h0 : n = 0 := Nat.le_zero.mp hn
    subst h0
    rfl
  | succ f ih =>
    intro n hn
    by_cases hz : n = 0
    · subst hz
      rfl
    · rw [sqrtF, if_neg hz]
      have hd : n / 4 ≤ f := by
        have := Nat.div_lt_self (Nat.pos_of_ne_zero hz) (by omega : 1 < 4)
        omega
      have hr := ih (n / 4) hd
      simp only [hr]
      have h1 : n / 4 < (Nat.sqrt (n / 4) + 1) * (Nat.sqrt (n / 4) + 1) :=
        Nat.lt_succ_sqrt (n / 4)
      have h2 : 4 * (n / 4) + n % 4 = n := Nat.div_add_mod n 4
      have h3 : n % 4 < 4 := Nat.mod_lt _ (by omega)
      have h4 : Nat.sqrt (n / 4) * Nat.sqrt (n / 4) ≤ n / 4 := Nat.sqrt_le (n / 4)
      by_cases hc : (2 * Nat.sqrt (n / 4) + 1) * (2 * Nat.sqrt (n / 4) + 1) ≤ n
      · rw [if_pos hc]
        exact Nat.eq_sqrt.mpr ⟨hc, by nlinarith⟩
      · rw [if_neg hc]
        have h5 : 4 * (Nat.sqrt (n / 4) * Nat.sqrt (n / 4)) ≤ 4 * (n / 4) :=
          Nat.mul_le_mul_left 4 h4
        have hle : (2 * Nat.sqrt (n / 4)) * (2 * Nat.sqrt (n / 4)) ≤ n := by
          have h6 : (2 * Nat.sqrt (n / 4)) * (2 * Nat.sqrt (n / 4)) =
              4 * (Nat.sqrt (n / 4) * Nat.sqrt (n / 4)) := by ring
          rw [h6]
          generalize hs : Nat.sqrt (n / 4) * Nat.sqrt (n / 4) = s at h5
          omega
        exact Nat.eq_sqrt.mpr ⟨hle, lt_of_not_le hc⟩

/-- `natSqrt` is `Nat.sqrt`. -/
theorem natSqrt_eq (n : ℕ) : natSqrt n = Nat.sqrt n := sqrtF_eq n n le_rfl

/-- Rational square root: square root of the numerator over square root of the
denominator, exact whenever the argument is a square of a rational. This is
the model of `f32::sqrt`. -/
def ratSqrt (q : ℚ) : ℚ := mkRat (natSqrt q.num.toNat) (natSqrt q.den)

/-- `ratSqrt` coincides with Mathlib's `Rat.sqrt`. -/
theorem ratSqrt_eq (q : ℚ) : ratSqrt q = Rat.sqrt q := by
  rw [ratSqrt, Rat.sqrt, Int.sqrt, natSqrt_eq, natSqrt_eq]

/-- `Vec3f` from src/math.rs: three f32 components, modelled as `ℚ`. -/
structure Vec3f where
  x : ℚ
  y : ℚ
  z : ℚ
  deriving DecidableEq, Repr

/-- `Vec3f::new`. -/
def Vec3f.new (x y z : ℚ) : Vec3f := ⟨x, y, z⟩

/-- `impl Add for Vec3f` (componentwise). -/
def Vec3f.add (a b : Vec3f) : Vec3f := ⟨a.x + b.x, a.y + b.y, a.z + b.z⟩

/-- `impl Sub for Vec3f` (componentwise). -/
def Vec3f.sub (a b : Vec3f) : Vec3f := ⟨a.x - b.x, a.y - b.y, a.z - b.z⟩

/-- `impl Neg for Vec3f` (componentwise). -/
def Vec3f.negate (a : Vec3f) : Vec3f := ⟨-a.x, -a.y, -a.z⟩

instance : Add Vec3f := ⟨Vec3f.add⟩

instance : Sub Vec3f := ⟨Vec3f.sub⟩

instance : Neg Vec3f := ⟨Vec3f.negate⟩

/-- Modelled from the spec: `Vec3f::zero` is called by src/entity.rs and
src/shapes.rs but its definition is not in src/math.rs; it is the zero
vector (the additive identity for the componentwise `add` of section 4.1). -/
def Vec3f.zero : Vec3f := ⟨0, 0, 0⟩

/-- `Vec3f::scale`. -/
def Vec3f.scale (v : Vec3f) (k : ℚ) : Vec3f := ⟨v.x * k, v.y * k, v.z * k⟩

/-- `Vec3f::length`: `(x*x + y*y + z*z).sqrt()`. -/
def Vec3f.length (v : Vec3f) : ℚ := ratSqrt (v.x * v.x + v.y * v.y + v.z * v.z)

/-- `Vec3f::normalize`: `self.scale(1.0 / self.length())`.
No zero-length guard exists in the source; in this `ℚ` model `1 / 0 = 0`
(the IEEE NaN outcome of the same code path is settled on the `FF` model). -/
def Vec3f.normalize (v : Vec3f) : Vec3f := v.scale (1 / v.length)

/-- `Vec3f::cross`. -/
def Vec3f.cross (a b : Vec3f) : Vec3f :=
  ⟨a.y * b.z - a.z * b.y, a.z * b.x - a.x * b.z, a.x * b.y - a.y * b.x⟩

/-- `Vec3f::dot`. -/
def Vec3f.dot (a b : Vec3f) : ℚ := a.x * b.x + a.y * b.y + a.z * b.z

/-- `Mat4x4f` from src/math.rs: row-major 4x4 f32 matrix, one field per entry
(`mab` is row `a`, column `b`, i.e. `m[a][b]` in the source). -/
structure Mat4x4f where
  m00 : ℚ
  m01 : ℚ
  m02 : ℚ
  m03 : ℚ
  m10 : ℚ
  m11 : ℚ
  m12 : ℚ
  m13 : ℚ
  m20 : ℚ
  m21 : ℚ
  m22 : ℚ
  m23 : ℚ
  m30 : ℚ
  m31 : ℚ
  m32 : ℚ
  m33 : ℚ
  deriving DecidableEq, Repr

/-- `Mat4x4f::zero`. -/
def Mat4x4f.zero : Mat4x4f :=
  ⟨0, 0, 0, 0, 0, 0, 0, 0, 0, 0, 0, 0, 0, 0, 0, 0⟩

/-- `Mat4x4f::identity`. -/
def Mat4x4f.identity : Mat4x4f :=
  ⟨1, 0, 0, 0, 0, 1, 0, 0, 0, 0, 1, 0, 0, 0, 0, 1⟩

/-- The homogeneous `w` coordinate computed by `Mat4x4f::mul` (the variable
called `scale` in the source): `m[3][0]*x + m[3][1]*y + m[3][2]*z + m[3][3]*t`
with `t = 1` when translating, else `0`. -/
def Mat4x4f.homogW (mt : Mat4x4f) (rhs : Vec3f) (translate : Bool) : ℚ :=
  let t : ℚ := if translate then 1 else 0
  mt.m30 * rhs.x + mt.m31 * rhs.y + mt.m32 * rhs.z + mt.m33 * t

/-- The vector `v` built by the first three rows in `Mat4x4f::mul`, before the
homogeneous divide. -/
def Mat4x4f.linPart (mt : Mat4x4f) (rhs : Vec3f) (translate : Bool) : Vec3f :=
  let t : ℚ := if translate then 1 else 0
  ⟨mt.m00 * rhs.x + mt.m01 * rhs.y + mt.m02 * rhs.z + mt.m03 * t,
   mt.m10 * rhs.x + mt.m11 * rhs.y + mt.m12 * rhs.z + mt.m13 * t,
   mt.m20 * rhs.x + mt.m21 * rhs.y + mt.m22 * rhs.z + mt.m23 * t⟩

/-- `Mat4x4f::mul` (matrix-vector transform): compute the three rows, compute
the homogeneous coordinate `scale`, and divide by it only when it is nonzero. -/
def Mat4x4f.mul (mt : Mat4x4f) (rhs : Vec3f) (translate : Bool) : Vec3f :=
  let t : ℚ := if translate then 1 else 0
  let v : Vec3f :=
    ⟨mt.m00 * rhs.x + mt.m01 * rhs.y + mt.m02 * rhs.z + mt.m03 * t,
     mt.m10 * rhs.x + mt.m11 * rhs.y + mt.m12 * rhs.z + mt.m13 * t,
     mt.m20 * rhs.x + mt.m21 * rhs.y + mt.m22 * rhs.z + mt.m23 * t⟩
  let scale := mt.m30 * rhs.x + mt.m31 * rhs.y + mt.m32 * rhs.z + mt.m33 * t
  if scale ≠ 0 then v.scale (1 / scale) else v

/-- src/canvas.rs invokes this operation under the name `vecmul`. -/
def Mat4x4f.vecmul (mt : Mat4x4f) (rhs : Vec3f) (translate : Bool) : Vec3f :=
  mt.mul rhs translate

/-- Division that faults (returns `none`) on a zero divisor; used to state
that the guarded divide of `Mat4x4f::mul` never divides by zero. -/
def fdiv (a b : ℚ) : Option ℚ := if b = 0 then none else some (a / b)

/-- `Mat4x4f::mul` with its one division routed through the faulting `fdiv`:
proved below to always succeed, for every matrix, vector and flag. -/
def Mat4x4f.mulChecked (mt : Mat4x4f) (rhs : Vec3f) (translate : Bool) :
    Option Vec3f :=
  let t : ℚ := if translate then 1 else 0
  let v : Vec3f :=
    ⟨mt.m00 * rhs.x + mt.m01 * rhs.y + mt.m02 * rhs.z + mt.m03 * t,
     mt.m10 * rhs.x + mt.m11 * rhs.y + mt.m12 * rhs.z + mt.m13 * t,
     mt.m20 * rhs.x + mt.m21 * rhs.y + mt.m22 * rhs.z + mt.m23 * t⟩
  let scale := mt.m30 * rhs.x + mt.m31 * rhs.y + mt.m32 * rhs.z + mt.m33 * t
  if scale ≠ 0 then (fdiv 1 scale).map (fun k => v.scale k) else some v

/-- `Mat4x4f::matmul`: row-by-column products (the source's triple loop over a
zero-initialized accumulator, unrolled). -/
def Mat4x4f.matmul (a b : Mat4x4f) : Mat4x4f where
  m00 := a.m00 * b.m00 + a.m01 * b.m10 + a.m02 * b.m20 + a.m03 * b.m30
  m01 := a.m00 * b.m01 + a.m01 * b.m11 + a.m02 * b.m21 + a.m03 * b.m31
  m02 := a.m00 * b.m02 + a.m01 * b.m12 + a.m02 * b.m22 + a.m03 * b.m32
  m03 := a.m00 * b.m03 + a.m01 * b.m13 + a.m02 * b.m23 + a.m03 * b.m33
  m10 := a.m10 * b.m00 + a.m11 * b.m10 + a.m12 * b.m20 + a.m13 * b.m30
  m11 := a.m10 * b.m01 + a.m11 * b.m11 + a.m12 * b.m21 + a.m13 * b.m31
  m12 := a.m10 * b.m02 + a.m11 * b.m12 + a.m12 * b.m22 + a.m13 * b.m32
  m13 := a.m10 * b.m03 + a.m11 * b.m13 + a.m12 * b.m23 + a.m13 * b.m33
  m20 := a.m20 * b.m00 + a.m21 * b.m10 + a.m22 * b.m20 + a.m23 * b.m30
  m21 := a.m20 * b.m01 + a.m21 * b.m11 + a.m22 * b.m21 + a.m23 * b.m31
  m22 := a.m20 * b.m02 + a.m21 * b.m12 + a.m22 * b.m22 + a.m23 * b.m32
  m23 := a.m20 * b.m03 + a.m21 * b.m13 + a.m22 * b.m23 + a.m23 * b.m33
  m30 := a.m30 * b.m00 + a.m31 * b.m10 + a.m32 * b.m20 + a.m33 * b.m30
  m31 := a.m30 * b.m01 + a.m31 * b.m11 + a.m32 * b.m21 + a.m33 * b.m31
  m32 := a.m30 * b.m02 + a.m31 * b.m12 + a.m32 * b.m22 + a.m33 * b.m32
  m33 := a.m30 * b.m03 + a.m31 * b.m13 + a.m32 * b.m23 + a.m33 * b.m33

/-- `Mat4x4f::rotate_y`: starts from the identity and overwrites the four
entries `m[0][0]`, `m[2][0]`, `m[0][2]`, `m[2][2]`. The sine and cosine of the
angle are passed as values (`theta.sin_cos()` is transcendental, so the
embedding takes the pair as the parameter). -/
def Mat4x4f.rotate_y (sintheta costheta : ℚ) : Mat4x4f :=
  { Mat4x4f.identity with
    m00 := costheta
    m20 := -sintheta
    m02 := sintheta
    m22 := costheta }

/-- Modelled from the spec: `Mat4x4f::rotate_x` is called by src/entity.rs but
its definition is not in src/math.rs; section 4.1 specifies the standard
right-handed rotation matrix about the x axis built from sin/cos of the angle
(passed as values, like `rotate_y`). -/
def Mat4x4f.rotate_x (sintheta costheta : ℚ) : Mat4x4f :=
  { Mat4x4f.identity with
    m11 := costheta
    m12 := -sintheta
    m21 := sintheta
    m22 := costheta }

/-- Modelled from the spec: src/entity.rs builds its scale matrix as
`Mat4x4f::identity() * self.scale` but `impl Mul<f32> for Mat4x4f` is not in
src/math.rs. Section 3's Matrix4 invariant states that the bottom row is
`[0,0,0,1]` for every transform used in the system except the projection
matrix, and the scale component of `translate ∘ rotate_to ∘ scale` is the
uniform scaling transform, so the scale matrix is `diag(s, s, s, 1)`. -/
def Mat4x4f.scaleMatrix (s : ℚ) : Mat4x4f :=
  ⟨s, 0, 0, 0, 0, s, 0, 0, 0, 0, s, 0, 0, 0, 0, 1⟩

/-- `Mat4x4f.mul` written with the named pieces `homogW` / `linPart`
(definitional repackaging of the source's lets). -/
theorem Mat4x4f.mul_eq (mt : Mat4x4f) (rhs : Vec3f) (translate : Bool) :
    mt.mul rhs translate =
      if mt.homogW rhs translate = 0 then mt.linPart rhs translate
      else (mt.linPart rhs translate).scale (1 / mt.homogW rhs translate) := by
  show (if mt.homogW rhs translate ≠ 0
      then (mt.linPart rhs translate).scale (1 / mt.homogW rhs translate)
      else mt.linPart rhs translate) = _
  rw [ite_not]

/-- `Mat4x4f.mulChecked` written with the named pieces (definitional). -/
theorem Mat4x4f.mulChecked_eq (mt : Mat4x4f) (rhs : Vec3f) (translate : Bool) :
    mt.mulChecked rhs translate =
      if mt.homogW rhs translate = 0 then some (mt.linPart rhs translate)
      else (fdiv 1 (mt.homogW rhs translate)).map
        (fun k => (mt.linPart rhs translate).scale k) := by
  show (if mt.homogW rhs translate ≠ 0
      then (fdiv 1 (mt.homogW rhs translate)).map
        (fun k => (mt.linPart rhs translate).scale k)
      else some (mt.linPart rhs translate)) = _
  rw [ite_not]

/-- C9: `Mat4x4f::mul` always guards its homogeneous divide: the division is
reached only when the computed `w` is nonzero (the checked variant, whose
division faults on a zero divisor, never faults), the result is the undivided
row vector when `w = 0`, and the divide is applied whenever `w` is nonzero -
for every matrix (not only the projection matrix), every input vector, and
both values of `translate`. -/
theorem mat_mul_guards_divide (mt : Mat4x4f) (rhs : Vec3f) (translate : Bool) :
    mt.mulChecked rhs translate = some (mt.mul rhs translate)
    ∧ (mt.homogW rhs translate = 0 →
        mt.mul rhs translate = mt.linPart rhs translate)
    ∧ (mt.homogW rhs translate ≠ 0 →
        mt.mul rhs translate =
          (mt.linPart rhs translate).scale (1 / mt.homogW rhs translate)) := by
  rw [Mat4x4f.mul_eq, Mat4x4f.mulChecked_eq, fdiv]
  by_cases h : mt.homogW rhs translate = 0
  · rw [if_pos h, if_pos h]
    exact ⟨rfl, fun _ => rfl, fun hc => absurd h hc⟩
  · rw [if_neg h, if_neg h, if_neg h]
    exact ⟨rfl, fun hc => absurd hc h, fun _ => rfl⟩

/-- Witness for C9 at concrete inputs: the zero matrix gives `w = 0` (no
divide), the identity with `translate = true` gives a nonzero `w = 1` (divide
applied). -/
theorem mat_mul_guards_divide_witness :
    Mat4x4f.zero.mul (Vec3f.new 1 2 3) true = Mat4x4f.zero.linPart (Vec3f.new 1 2 3) true
    ∧ Mat4x4f.identity.mul (Vec3f.new 1 2 3) true =
        (Mat4x4f.identity.linPart (Vec3f.new 1 2 3) true).scale
          (1 / Mat4x4f.identity.homogW (Vec3f.new 1 2 3) true) :=
  ⟨(mat_mul_guards_divide Mat4x4f.zero (Vec3f.new 1 2 3) true).2.1
      (by with_unfolding_all rfl),
   (mat_mul_guards_divide Mat4x4f.identity (Vec3f.new 1 2 3) true).2.2
      (by with_unfolding_all decide)⟩

/-- Truncation toward zero of an f32 value (`q as i32`-style, before any
saturation): floor for nonnegative values, negated floor of the negation
otherwise. -/
def truncQ (q : ℚ) : ℤ := if 0 ≤ q then ⌊q⌋ else -⌊-q⌋

/-- Rust `f32 as u8`: saturating cast, truncating toward zero, clamping the
result into `[0, 255]`. -/
def f32ToU8 (q : ℚ) : ℕ := min 255 (max 0 (truncQ q)).toNat

/-- Rust `f32 as usize`: saturating cast, truncating toward zero; negative
values saturate to `0`. (The upper saturation bound of `usize` is unreachable
for any realizable buffer size and is omitted.) -/
def f32ToUsize (q : ℚ) : ℕ := (max 0 (truncQ q)).toNat

/-- Rust `f32 as i32`: saturating cast, truncating toward zero. -/
def f32ToI32 (q : ℚ) : ℤ := max (-(2 ^ 31)) (min (2 ^ 31 - 1) (truncQ q))

/-- `Color` from src/texture.rs: three `u8` channels, modelled as `ℕ` with the
validity predicate `Color.valid` expressing the `u8` range. -/
structure Color where
  r : ℕ
  g : ℕ
  b : ℕ
  deriving DecidableEq, Repr

/-- The `u8` range invariant of a `Color`. -/
def Color.valid (c : Color) : Prop := c.r ≤ 255 ∧ c.g ≤ 255 ∧ c.b ≤ 255

instance (c : Color) : Decidable (Color.valid c) :=
  decidable_of_iff (c.r ≤ 255 ∧ c.g ≤ 255 ∧ c.b ≤ 255) Iff.rfl

/-- `Color::new`. -/
def Color.new (r g b : ℕ) : Color := ⟨r, g, b⟩

/-- `Color::WHITE`. -/
def Color.WHITE : Color := ⟨255, 255, 255⟩

/-- `Color::BLACK`. -/
def Color.BLACK : Color := ⟨0, 0, 0⟩

/-- `Color::is_not_black`. -/
def Color.is_not_black (c : Color) : Bool :=
  !(c.r == 0 && c.g == 0 && c.b == 0)

/-- `impl Mul<f32> for Color`: clamp the factor into `[0,1]`, scale each
channel (truncating `f32 as u8` cast), and if a non-black color would become
black, return `Color::new(1,1,1)` instead. -/
def Color.mulF (c : Color) (rhs : ℚ) : Color :=
  let rhs := if rhs < 0 then 0 else if rhs > 1 then 1 else rhs
  let new_color : Color :=
    ⟨f32ToU8 ((c.r : ℚ) * rhs), f32ToU8 ((c.g : ℚ) * rhs), f32ToU8 ((c.b : ℚ) * rhs)⟩
  if c.is_not_black && !new_color.is_not_black then Color.new 1 1 1 else new_color

/-- `impl AddAssign for Color` with the `u8` additions checked: `none` models
the overflow fault (`u8` addition past 255 panics in debug builds and wraps in
release builds; proved below never to occur in `to_s`). -/
def Color.addChecked (a b : Color) : Option Color :=
  if a.r + b.r ≤ 255 ∧ a.g + b.g ≤ 255 ∧ a.b + b.b ≤ 255 then
    some ⟨a.r + b.r, a.g + b.g, a.b + b.b⟩
  else none

/-- `Texture` from src/texture.rs: a row-major color grid. -/
structure Texture where
  data : List Color
  width : ℕ
  height : ℕ
  deriving DecidableEq, Repr

/-- The well-formedness of a loaded texture (`load_from_file` builds
`width * height` pixels). -/
def Texture.wf (t : Texture) : Prop :=
  t.data.length = t.width * t.height ∧ 1 ≤ t.width ∧ 1 ≤ t.height

/-- `Texture::sample`: `x = (u * (width-1)) as usize`,
`y = (v * (height-1)) as usize`, then an unchecked `data[y*width + x]` lookup;
`none` models the index-out-of-range panic. There is no clamping of `u`, `v`
in the source. -/
def Texture.sample (t : Texture) (u v : ℚ) : Option Color :=
  let x := f32ToUsize (u * ((t.width - 1 : ℕ) : ℚ))
  let y := f32ToUsize (v * ((t.height - 1 : ℕ) : ℚ))
  t.data.get? (y * t.width + x)

/-- C8 counterexample: on a loaded 2x1 texture, `sample(2.0, 0.0)` computes
`x = 2` and reads index 2 of a 2-element buffer - an out-of-range panic, so
`sample` neither clamps `u` into `[0,1]` nor avoids panicking. -/
theorem texture_sample_panics_cex :
    (Texture.mk [Color.BLACK, Color.BLACK] 2 1).wf
    ∧ Texture.sample (Texture.mk [Color.BLACK, Color.BLACK] 2 1) 2 0 = none := by
  constructor
  · exact ⟨rfl, by decide, by decide⟩
  · with_unfolding_all rfl

/-- `f32 as usize` of a nonnegative value is the floor. -/
theorem f32ToUsize_of_nonneg (q : ℚ) (h : 0 ≤ q) : f32ToUsize q = ⌊q⌋.toNat := by
  rw [f32ToUsize, truncQ, if_pos h]
  have h0 : (0 : ℤ) ≤ ⌊q⌋ := Int.floor_nonneg.mpr h
  rw [max_eq_right h0]

/-- C8 (amended): `Texture::sample` performs no clamping, but whenever `u` and
`v` lie in `[0,1]` (and the texture is a loaded `width * height` grid with
both dimensions at least 1) the lookup index stays in bounds: the sample is
exactly the nearest pixel `data[y*width + x]` with `x = floor(u*(width-1))`
and `y = floor(v*(height-1))`, and no panic occurs. Outside `[0,1]` the claim
fails: negative inputs saturate to 0, while `u > 1` can read out of bounds and
panic (see the counterexample). -/
theorem texture_sample_in_range (t : Texture) (u v : ℚ)
    (hwf : t.wf) (hu0 : 0 ≤ u) (hu1 : u ≤ 1) (hv0 : 0 ≤ v) (hv1 : v ≤ 1) :
    t.sample u v =
      t.data.get? (⌊v * ((t.height - 1 : ℕ) : ℚ)⌋.toNat * t.width
        + ⌊u * ((t.width - 1 : ℕ) : ℚ)⌋.toNat)
    ∧ (t.sample u v).isSome := by
  obtain ⟨hlen, hw1, hh1⟩ := hwf
  have hsamp : t.sample u v =
      t.data.get? (⌊v * ((t.height - 1 : ℕ) : ℚ)⌋.toNat * t.width
        + ⌊u * ((t.width - 1 : ℕ) : ℚ)⌋.toNat) := by
    rw [Texture.sample]
    rw [f32ToUsize_of_nonneg _ (mul_nonneg hu0 (by positivity)),
        f32ToUsize_of_nonneg _ (mul_nonneg hv0 (by positivity))]
  refine ⟨hsamp, ?_⟩
  rw [hsamp]
  have hxle : ⌊u * ((t.width - 1 : ℕ) : ℚ)⌋ ≤ ((t.width - 1 : ℕ) : ℤ) := by
    have hle : u * ((t.width - 1 : ℕ) : ℚ) ≤ ((t.width - 1 : ℕ) : ℚ) := by
      calc u * ((t.width - 1 : ℕ) : ℚ) ≤ 1 * ((t.width - 1 : ℕ) : ℚ) :=
            mul_le_mul_of_nonneg_right hu1 (by positivity)
        _ = ((t.width - 1 : ℕ) : ℚ) := one_mul _
    exact le_of_le_of_eq (Int.floor_le_floor hle) (Int.floor_natCast _)
  have hyle : ⌊v * ((t.height - 1 : ℕ) : ℚ)⌋ ≤ ((t.height - 1 : ℕ) : ℤ) := by
    have hle : v * ((t.height - 1 : ℕ) : ℚ) ≤ ((t.height - 1 : ℕ) : ℚ) := by
      calc v * ((t.height - 1 : ℕ) : ℚ) ≤ 1 * ((t.height - 1 : ℕ) : ℚ) :=
            mul_le_mul_of_nonneg_right hv1 (by positivity)
        _ = ((t.height - 1 : ℕ) : ℚ) := one_mul _
    exact le_of_le_of_eq (Int.floor_le_floor hle) (Int.floor_natCast _)
  have hx : ⌊u * ((t.width - 1 : ℕ) : ℚ)⌋.toNat ≤ t.width - 1 := by omega
  have hy : ⌊v * ((t.height - 1 : ℕ) : ℚ)⌋.toNat ≤ t.height - 1 := by omega
  have hidx : ⌊v * ((t.height - 1 : ℕ) : ℚ)⌋.toNat * t.width
      + ⌊u * ((t.width - 1 : ℕ) : ℚ)⌋.toNat < t.data.length := by
    rw [hlen]
    have ha2 : ⌊v * ((t.height - 1 : ℕ) : ℚ)⌋.toNat + 1 ≤ t.height := by omega
    have hb2 : ⌊u * ((t.width - 1 : ℕ) : ℚ)⌋.toNat + 1 ≤ t.width := by omega
    have e1 : (⌊v * ((t.height - 1 : ℕ) : ℚ)⌋.toNat + 1) * t.width
        = ⌊v * ((t.height - 1 : ℕ) : ℚ)⌋.toNat * t.width + t.width :=
      Nat.succ_mul _ _
    have e2 : (⌊v * ((t.height - 1 : ℕ) : ℚ)⌋.toNat + 1) * t.width
        ≤ t.height * t.width := Nat.mul_le_mul_right _ ha2
    have e3 : t.width * t.height = t.height * t.width := Nat.mul_comm _ _
    omega
  simp [List.get?_eq_getElem?, List.getElem?_eq_getElem hidx]

/-- Witness for C8 at a concrete loaded texture: sampling the 2x1 texture at
`(u, v) = (1, 0)` stays in bounds and returns the second pixel. -/
theorem texture_sample_in_range_witness :
    ((Texture.mk [Color.BLACK, Color.WHITE] 2 1).sample 1 0).isSome
    ∧ (Texture.mk [Color.BLACK, Color.WHITE] 2 1).sample 1 0 = some Color.WHITE :=
  ⟨(texture_sample_in_range (Texture.mk [Color.BLACK, Color.WHITE] 2 1) 1 0
      (by simp [Texture.wf]) (by decide) (by decide) (by decide) (by decide)).2,
   by with_unfolding_all rfl⟩

/-- Unfolding of `+` on `Vec3f`. -/
theorem Vec3f.add_def (a b : Vec3f) : a + b = ⟨a.x + b.x, a.y + b.y, a.z + b.z⟩ := rfl

theorem Vec3f.add_zero (a : Vec3f) : a + Vec3f.zero = a := by
  simp only [Vec3f.add_def, Vec3f.zero]
  simp

theorem Vec3f.zero_add (a : Vec3f) : Vec3f.zero + a = a := by
  simp only [Vec3f.add_def, Vec3f.zero]
  simp

theorem Vec3f.add_assoc (a b c : Vec3f) : a + b + c = a + (b + c) := by
  simp only [Vec3f.add_def, Vec3f.mk.injEq]
  refine ⟨by ring, by ring, by ring⟩

theorem Vec3f.add_comm (a b : Vec3f) : a + b = b + a := by
  simp only [Vec3f.add_def, Vec3f.mk.injEq]
  refine ⟨by ring, by ring, by ring⟩

/-- `Vertex` from src/vertex.rs: position, normal, optional texture
coordinate. -/
structure Vertex where
  position : Vec3f
  normal : Vec3f
  texcoord : Option (ℚ × ℚ)
  deriving DecidableEq, Repr

/-- `Vertex::new` (texcoord present). -/
def Vertex.new (position normal : Vec3f) (texcoord : ℚ × ℚ) : Vertex :=
  ⟨position, normal, some texcoord⟩

/-- `Vertex::with_pos_normal` (no texcoord). -/
def Vertex.with_pos_normal (position normal : Vec3f) : Vertex :=
  ⟨position, normal, none⟩

/-- `Shape` from src/shapes.rs; the `VertexArray` is a plain vertex list. -/
structure Shape where
  va : List Vertex
  triangles : List (ℕ × ℕ × ℕ)
  deriving DecidableEq, Repr

/-- `Shape::get`: `&self.va[index]`, with `none` modelling the
index-out-of-range panic. -/
def Shape.get (s : Shape) (index : ℕ) : Option Vertex := s.va.get? index

/-- One `normals[i] += v` step of `gen_normals` (the index is already known to
be in range there, since `positions[i]` was fetched first). -/
def addAt (normals : List Vec3f) (i : ℕ) (v : Vec3f) : List Vec3f :=
  normals.set i (normals.getD i Vec3f.zero + v)

/-- The triangle loop of `Shape::gen_normals`: fetch the three positions
(`none` models the index-out-of-range panic), normalize the face cross
product, and add it into the three vertex slots. -/
def genNormalsLoop (positions : List Vec3f) :
    List (ℕ × ℕ × ℕ) → List Vec3f → Option (List Vec3f)
  | [], normals => some normals
  | (i0, i1, i2) :: rest, normals =>
    match positions.get? i0, positions.get? i1, positions.get? i2 with
    | some p0, some p1, some p2 =>
      let tri_normal := ((p1 - p0).cross (p2 - p0)).normalize
      genNormalsLoop positions rest
        (addAt (addAt (addAt normals i0 tri_normal) i1 tri_normal) i2 tri_normal)
    | _, _, _ => none

/-- `Shape::gen_normals`: accumulate the NORMALIZED face normal of every
triangle into its three vertices (src/shapes.rs line 67 normalizes the cross
product before accumulating), then normalize each per-vertex sum. -/
def Shape.gen_normals (positions : List Vec3f)
    (triangles : List (ℕ × ℕ × ℕ)) : Option (List Vec3f) :=
  (genNormalsLoop positions triangles
      (List.replicate positions.length Vec3f.zero)).map
    (fun normals => normals.map Vec3f.normalize)

/-- The claim's (and spec sections 3/4.2's) version of the triangle loop,
for comparison: identical to `genNormalsLoop` except the accumulated face
normal is the raw, non-normalized cross product. -/
def genNormalsLoopRaw (positions : List Vec3f) :
    List (ℕ × ℕ × ℕ) → List Vec3f → Option (List Vec3f)
  | [], normals => some normals
  | (i0, i1, i2) :: rest, normals =>
    match positions.get? i0, positions.get? i1, positions.get? i2 with
    | some p0, some p1, some p2 =>
      let tri_normal := (p1 - p0).cross (p2 - p0)
      genNormalsLoopRaw positions rest
        (addAt (addAt (addAt normals i0 tri_normal) i1 tri_normal) i2 tri_normal)
    | _, _, _ => none

/-- The claim's version of `gen_normals` (raw cross products accumulated,
then one normalize per vertex), for comparison with the source's
`Shape.gen_normals`. -/
def Shape.gen_normals_claimed (positions : List Vec3f)
    (triangles : List (ℕ × ℕ × ℕ)) : Option (List Vec3f) :=
  (genNormalsLoopRaw positions triangles
      (List.replicate positions.length Vec3f.zero)).map
    (fun normals => normals.map Vec3f.normalize)

/-- `Shape::new`: zips positions, normals and texcoords into vertices (no
validation of `triangles` happens here). -/
def Shape.new (positions normals : List Vec3f) (texcoords : List (ℚ × ℚ))
    (triangles : List (ℕ × ℕ × ℕ)) : Shape :=
  ⟨((positions.zip normals).zip texcoords).map
      (fun pnt => Vertex.new pnt.1.1 pnt.1.2 pnt.2), triangles⟩

/-- `Shape::with_normals`: zips positions and normals into vertices (no
validation of `triangles` happens here). -/
def Shape.with_normals (positions normals : List Vec3f)
    (triangles : List (ℕ × ℕ × ℕ)) : Shape :=
  ⟨(positions.zip normals).map (fun pn => Vertex.with_pos_normal pn.1 pn.2),
   triangles⟩

/-- `Shape::with_tris`: derives normals via `gen_normals` (which faults at
construction on an out-of-range triangle index), then builds via
`with_normals`. -/
def Shape.with_tris (positions : List Vec3f)
    (triangles : List (ℕ × ℕ × ℕ)) : Option Shape :=
  (Shape.gen_normals positions triangles).map
    (fun normals => Shape.with_normals positions normals triangles)

/-- `Shape::with_texcoords`: derives normals via `gen_normals`, then builds
via `Shape::new`. -/
def Shape.with_texcoords (positions : List Vec3f)
    (triangles : List (ℕ × ℕ × ℕ)) (texcoords : List (ℚ × ℚ)) : Option Shape :=
  (Shape.gen_normals positions triangles).map
    (fun normals => Shape.new positions normals texcoords triangles)

/-- The normalized face normal of a triangle (the `tri_normal` of the loop
body; `getD` matches the loop's fetches at in-range indices). -/
def faceNormal (positions : List Vec3f) (t : ℕ × ℕ × ℕ) : Vec3f :=
  let p0 := positions.getD t.1 Vec3f.zero
  let p1 := positions.getD t.2.1 Vec3f.zero
  let p2 := positions.getD t.2.2 Vec3f.zero
  ((p1 - p0).cross (p2 - p0)).normalize

/-- The contribution of one triangle to the accumulated normal of vertex `v`:
its normalized face normal, once per slot of the triangle naming `v`. -/
def triContribution (positions : List Vec3f) (t : ℕ × ℕ × ℕ) (v : ℕ) : Vec3f :=
  (if t.1 = v then faceNormal positions t else Vec3f.zero) +
  ((if t.2.1 = v then faceNormal positions t else Vec3f.zero) +
   (if t.2.2 = v then faceNormal positions t else Vec3f.zero))

/-- The sum, over every triangle touching vertex `v`, of its normalized face
normal. -/
def accumNormal (positions : List Vec3f) (triangles : List (ℕ × ℕ × ℕ))
    (v : ℕ) : Vec3f :=
  triangles.foldr (fun t acc => triContribution positions t v + acc) Vec3f.zero

theorem addAt_length (l : List Vec3f) (i : ℕ) (v : Vec3f) :
    (addAt l i v).length = l.length := by
  rw [addAt, List.length_set]

theorem addAt_getD (l : List Vec3f) (i v : ℕ) (n : Vec3f) (hi : i < l.length) :
    (addAt l i n).getD v Vec3f.zero =
      l.getD v Vec3f.zero + (if i = v then n else Vec3f.zero) := by
  by_cases h : i = v
  · subst h
    rw [if_pos rfl, addAt, List.getD, List.get?_set_eq_of_lt _ hi]
    rfl
  · rw [if_neg h, Vec3f.add_zero, addAt, List.getD, List.get?_set_ne _ _ h]
    rfl

theorem list_getD_range (l : List Vec3f) :
    (List.range l.length).map (fun v => l.getD v Vec3f.zero) = l := by
  apply List.ext_getElem
  · simp
  · intro i h1 h2
    simp only [List.getElem_map, List.getElem_range, List.getD, List.get?_eq_getElem?]
    rw [List.getElem?_eq_getElem h2]
    rfl

/-- The accumulator invariant of the `gen_normals` triangle loop: starting
from `acc`, the loop (when every index is in range) returns the pointwise sum
of `acc` and the per-vertex accumulated normalized face normals. -/
theorem genNormalsLoop_eq (positions : List Vec3f) :
    ∀ (ts : List (ℕ × ℕ × ℕ)) (acc : List Vec3f),
      (∀ t ∈ ts, t.1 < positions.length ∧ t.2.1 < positions.length
        ∧ t.2.2 < positions.length) →
      acc.length = positions.length →
      genNormalsLoop positions ts acc =
        some ((List.range positions.length).map
          (fun v => acc.getD v Vec3f.zero + accumNormal positions ts v)) := by
  intro ts
  induction ts with
  | nil =>
    intro acc _ hlen
    simp only [genNormalsLoop, accumNormal, List.foldr_nil, Vec3f.add_zero]
    rw [← hlen, list_getD_range]
  | cons t rest ih =>
    intro acc hb hlen
    obtain ⟨i0, i1, i2⟩ := t
    obtain ⟨h0, h1, h2⟩ := hb (i0, i1, i2) (List.mem_cons_self _ _)
    have hrest : ∀ t ∈ rest, t.1 < positions.length ∧ t.2.1 < positions.length
        ∧ t.2.2 < positions.length := fun t ht => hb t (List.mem_cons_of_mem _ ht)
    rw [genNormalsLoop, List.get?_eq_get h0, List.get?_eq_get h1, List.get?_eq_get h2]
    set p0 := positions.get ⟨i0, h0⟩ with hp0
    set p1 := positions.get ⟨i1, h1⟩ with hp1
    set p2 := positions.get ⟨i2, h2⟩ with hp2
    set n := ((p1 - p0).cross (p2 - p0)).normalize with hn
    have hlen3 : (addAt (addAt (addAt acc i0 n) i1 n) i2 n).length = positions.length := by
      rw [addAt_length, addAt_length, addAt_length, hlen]
    show genNormalsLoop positions rest (addAt (addAt (addAt acc i0 n) i1 n) i2 n) =
      some (List.map
        (fun v => acc.getD v Vec3f.zero + accumNormal positions ((i0, i1, i2) :: rest) v)
        (List.range positions.length))
    rw [ih _ hrest hlen3]
    congr 1
    apply List.map_congr_left
    intro v _
    have hfn : faceNormal positions (i0, i1, i2) = n := by
      rw [faceNormal, hn]
      have e0 : positions.getD i0 Vec3f.zero = p0 := by
        rw [List.getD, List.get?_eq_get h0]; rfl
      have e1 : positions.getD i1 Vec3f.zero = p1 := by
        rw [List.getD, List.get?_eq_get h1]; rfl
      have e2 : positions.getD i2 Vec3f.zero = p2 := by
        rw [List.getD, List.get?_eq_get h2]; rfl
      rw [e0, e1, e2]
    have hd : (addAt (addAt (addAt acc i0 n) i1 n) i2 n).getD v Vec3f.zero =
        acc.getD v Vec3f.zero +
          ((if i0 = v then n else Vec3f.zero) +
           ((if i1 = v then n else Vec3f.zero) +
            (if i2 = v then n else Vec3f.zero))) := by
      rw [addAt_getD _ _ _ _ (by rw [addAt_length, addAt_length, hlen]; exact h2),
          addAt_getD _ _ _ _ (by rw [addAt_length, hlen]; exact h1),
          addAt_getD _ _ _ _ (by rw [hlen]; exact h0)]
      rw [Vec3f.add_assoc, Vec3f.add_assoc]
    rw [hd]
    have hacc : accumNormal positions ((i0, i1, i2) :: rest) v =
        triContribution positions (i0, i1, i2) v + accumNormal positions rest v := rfl
    rw [hacc, triContribution, hfn]
    conv_lhs => rw [Vec3f.add_assoc]

/-- C2 (amended): when normals are not supplied, each vertex normal is derived
exactly once at construction: `gen_normals` sums, over every triangle touching
the vertex (once per slot naming it), the NORMALIZED face normal
`normalize((p1 - p0) x (p2 - p0))` - not the raw cross product - and then
normalizes the per-vertex sum. -/
theorem gen_normals_sums_normalized_face_normals
    (positions : List Vec3f) (triangles : List (ℕ × ℕ × ℕ))
    (hb : ∀ t ∈ triangles, t.1 < positions.length ∧ t.2.1 < positions.length
      ∧ t.2.2 < positions.length) :
    Shape.gen_normals positions triangles =
      some ((List.range positions.length).map
        (fun v => (accumNormal positions triangles v).normalize)) := by
  rw [Shape.gen_normals,
      genNormalsLoop_eq positions triangles _ hb (List.length_replicate _ _)]
  rw [Option.map_some']
  congr 1
  rw [List.map_map]
  apply List.map_congr_left
  intro v _
  have hrep : (List.replicate positions.length Vec3f.zero).getD v Vec3f.zero
      = Vec3f.zero := by
    rcases Nat.lt_or_ge v positions.length with h | h
    · rw [List.getD, List.get?_eq_getElem?,
          List.getElem?_eq_getElem (by simpa using h)]
      simp
    · rw [List.getD, List.get?_eq_getElem?,
          List.getElem?_eq_none (by simpa using h)]
      rfl
  show ((List.replicate positions.length Vec3f.zero).getD v Vec3f.zero
      + accumNormal positions triangles v).normalize = _
  rw [hrep, Vec3f.zero_add]

/-- Witness for C2 at a concrete one-triangle mesh. -/
theorem gen_normals_sums_normalized_face_normals_witness :
    Shape.gen_normals [Vec3f.new 0 0 0, Vec3f.new 1 0 0, Vec3f.new 0 1 0]
        [(0, 1, 2)] =
      some ((List.range 3).map
        (fun v => (accumNormal
          [Vec3f.new 0 0 0, Vec3f.new 1 0 0, Vec3f.new 0 1 0]
          [(0, 1, 2)] v).normalize)) :=
  gen_normals_sums_normalized_face_normals
    [Vec3f.new 0 0 0, Vec3f.new 1 0 0, Vec3f.new 0 1 0] [(0, 1, 2)] (by decide)

/-- C2 counterexample: on a concrete two-triangle fan (face normals of lengths
17 and 25), the source's `gen_normals` - which normalizes each face normal
BEFORE accumulating (src/shapes.rs line 67) - yields `(3/5, 4/5, 0)` at vertex
0, while the claim's raw cross-product accumulation yields `(5/13, 12/13, 0)`:
the derivation described by the claim is not the one the code performs. -/
theorem gen_normals_not_raw_accumulation_cex :
    (Shape.gen_normals
        [Vec3f.new 0 0 0, Vec3f.new 0 0 1, Vec3f.new 0 (-17) 0, Vec3f.new 24 7 0]
        [(0, 1, 2), (0, 1, 3)]).bind (fun l => l.get? 0)
      = some (Vec3f.new (3/5) (4/5) 0)
    ∧ (Shape.gen_normals_claimed
        [Vec3f.new 0 0 0, Vec3f.new 0 0 1, Vec3f.new 0 (-17) 0, Vec3f.new 24 7 0]
        [(0, 1, 2), (0, 1, 3)]).bind (fun l => l.get? 0)
      = some (Vec3f.new (5/13) (12/13) 0)
    ∧ Vec3f.new (3/5) (4/5) 0 ≠ Vec3f.new (5/13) (12/13) 0 := by
  refine ⟨by with_unfolding_all rfl, by with_unfolding_all rfl, by with_unfolding_all decide⟩

/-- `Entity` from src/entity.rs. The source stores a unit `direction` vector
and, in `gen_local_transform`, derives `theta`/`phi` from it with `acos` /
`asin` and immediately takes their `sin`/`cos` in the rotation builders; those
functions are transcendental, so the embedding carries the four derived trig
values (`sin theta`, `cos theta`, `sin phi`, `cos phi`) as the pose. Theorems
below quantify over all four values, hence over every direction. -/
structure Entity where
  shape : Shape
  translation : Vec3f
  sinTheta : ℚ
  cosTheta : ℚ
  sinPhi : ℚ
  cosPhi : ℚ
  scale : ℚ
  texture : Option Texture

/-- The rotation part of the local transform: `rotate_y(theta) * rotate_x(phi)`
(composed via `matmul`). -/
def Entity.rotMat (e : Entity) : Mat4x4f :=
  (Mat4x4f.rotate_y e.sinTheta e.cosTheta).matmul
    (Mat4x4f.rotate_x e.sinPhi e.cosPhi)

/-- `Entity::gen_local_transform`: `ry * rx * s` (matrix `*` is `matmul`, per
section 4.1 of the spec; `s` is the scale matrix, see `Mat4x4f.scaleMatrix`),
then the translation is written into the fourth column. -/
def Entity.gen_local_transform (e : Entity) : Mat4x4f :=
  let s := Mat4x4f.scaleMatrix e.scale
  let ry := Mat4x4f.rotate_y e.sinTheta e.cosTheta
  let rx := Mat4x4f.rotate_x e.sinPhi e.cosPhi
  let transform := (ry.matmul rx).matmul s
  { transform with
    m03 := e.translation.x
    m13 := e.translation.y
    m23 := e.translation.z }

/-- C3: applying the derived local transform with translation enabled is
exactly translate ∘ rotate ∘ scale: the rotated coordinates of `p` (the
rotation applied through `vecmul` with `translate = false`) are multiplied by
the scale factor, then the translation is added unchanged. The bottom row of
the composed transform is `[0,0,0,1]`, so the homogeneous `w` is 1 and the
guarded divide leaves the result intact. Holds for every pose and every `p`. -/
theorem gen_local_transform_is_trs (e : Entity) (p : Vec3f) :
    (e.gen_local_transform).vecmul p true =
      ((e.rotMat).vecmul p false).scale e.scale + e.translation := by
  dsimp only [Entity.gen_local_transform, Entity.rotMat, Mat4x4f.vecmul,
    Mat4x4f.mul, Mat4x4f.matmul, Mat4x4f.rotate_y, Mat4x4f.rotate_x,
    Mat4x4f.scaleMatrix, Mat4x4f.identity, Vec3f.scale, Vec3f.add_def]
  norm_num
  constructor <;> ring_nf <;> simp

/-- Unfoldings of `-` (binary and unary) on `Vec3f`. -/
theorem Vec3f.sub_def (a b : Vec3f) : a - b = ⟨a.x - b.x, a.y - b.y, a.z - b.z⟩ := rfl

theorem Vec3f.neg_def (a : Vec3f) : -a = ⟨-a.x, -a.y, -a.z⟩ := rfl

/-- The fixed light direction of `Canvas::draw_entity`:
`Vec3f::new(1.0, -1.0, -1.0).normalize()`. -/
def light_direction : Vec3f := (Vec3f.new 1 (-1) (-1)).normalize

/-- Rust `f32::clamp(lo, hi)`. -/
def clampQ (x lo hi : ℚ) : ℚ := if x < lo then lo else if x > hi then hi else x

/-- `Entity::sample_texture`: samples the texture when loaded (`none` models a
panic inside `Texture::sample`), returns white otherwise. -/
def Entity.sample_texture (e : Entity) (uv : ℚ × ℚ) : Option Color :=
  match e.texture with
  | some tex => tex.sample uv.1 uv.2
  | none => some Color.WHITE

/-- The base color `c0` of a triangle in `draw_entity`: sample the texture at
vertex 0's texcoord if present, else white. -/
def vertexBaseColor (e : Entity) (v : Vertex) : Option Color :=
  match v.texcoord with
  | some tc => e.sample_texture tc
  | none => some Color.WHITE

/-- The pixel-space remap of `draw_entity`:
`x = (x + 1) * width / 2`, `y = (y + 1) * height / 2`, `z` kept. -/
def remap (p : Vec3f) (width height : ℕ) : Vec3f :=
  ⟨(p.x + 1) * (width : ℚ) / 2, (p.y + 1) * (height : ℚ) / 2, p.z⟩

/-- The arguments of one `fill_triangle` call. -/
structure FillCall where
  x0 : ℤ
  y0 : ℤ
  x1 : ℤ
  y1 : ℤ
  x2 : ℤ
  y2 : ℤ
  color : Color
  depth : ℚ
  deriving DecidableEq, Repr

/-- The outcome of the per-triangle body of `draw_entity`: back-face culled
(`continue`, no pixel ever written for the triangle) or rasterized through one
`fill_triangle` call. -/
inductive TriOutcome where
  | culled : TriOutcome
  | rasterized : FillCall → TriOutcome
  deriving DecidableEq, Repr

/-- A vertex position taken through the entity's local transform
(`lt.vecmul(&v.position, true)`). -/
def transformedPos (e : Entity) (v : Vertex) : Vec3f :=
  e.gen_local_transform.vecmul v.position true

/-- The back-face test value of `draw_entity`: the dot product of the
normalized transformed-space face normal with the vector from the first
transformed vertex to the camera. -/
def cullDot (camera tp0 tp1 tp2 : Vec3f) : ℚ :=
  (((tp1 - tp0).cross (tp2 - tp0)).normalize).dot (camera - tp0)

/-- The per-triangle body of `Canvas::draw_entity` (src/canvas.rs lines
43-108): fetch the three vertices (`none` models the indexing panic), apply
the local transform, cull back faces, project, remap to pixel space, average
the depth, shade, sample the base color, and emit the `fill_triangle` call. -/
def drawEntityStep (camera : Vec3f) (projection : Mat4x4f) (width height : ℕ)
    (e : Entity) (tri : ℕ × ℕ × ℕ) : Option TriOutcome :=
  match e.shape.get tri.1, e.shape.get tri.2.1, e.shape.get tri.2.2 with
  | some v0, some v1, some v2 =>
    let lt := e.gen_local_transform
    let tp0 := lt.vecmul v0.position true
    let tp1 := lt.vecmul v1.position true
    let tp2 := lt.vecmul v2.position true
    let face_normal := ((tp1 - tp0).cross (tp2 - tp0)).normalize
    if face_normal.dot (camera - tp0) < 0 then some TriOutcome.culled
    else
      let pp0 := remap (projection.vecmul tp0 true) width height
      let pp1 := remap (projection.vecmul tp1 true) width height
      let pp2 := remap (projection.vecmul tp2 true) width height
      let depth := (pp0.z + pp1.z + pp2.z) / 3
      let brightness := clampQ (-(face_normal.dot light_direction)) 0 1
      match vertexBaseColor e v0 with
      | some c0 => some (TriOutcome.rasterized
          ⟨f32ToI32 pp0.x, f32ToI32 pp0.y, f32ToI32 pp1.x, f32ToI32 pp1.y,
           f32ToI32 pp2.x, f32ToI32 pp2.y, c0.mulF brightness, depth⟩)
      | none => none
  | _, _, _ => none

/-- The triangle loop of `Canvas::draw_entity`, collecting the emitted
`fill_triangle` calls in order (`none` models a panic in any step). -/
def drawEntityGo (camera : Vec3f) (projection : Mat4x4f) (width height : ℕ)
    (e : Entity) : List (ℕ × ℕ × ℕ) → Option (List FillCall)
  | [] => some []
  | t :: rest =>
    match drawEntityStep camera projection width height e t with
    | none => none
    | some TriOutcome.culled => drawEntityGo camera projection width height e rest
    | some (TriOutcome.rasterized fc) =>
      (drawEntityGo camera projection width height e rest).map (fun l => fc :: l)

/-- `Canvas::draw_entity` at the rasterization boundary: the list of
`fill_triangle` calls it performs. -/
def drawEntity (camera : Vec3f) (projection : Mat4x4f) (width height : ℕ)
    (e : Entity) : Option (List FillCall) :=
  drawEntityGo camera projection width height e e.shape.triangles

theorem cullDot_swap (camera tp0 tp1 tp2 : Vec3f) :
    cullDot camera tp0 tp2 tp1 = -cullDot camera tp0 tp1 tp2 := by
  have hcross : (tp2 - tp0).cross (tp1 - tp0) = -((tp1 - tp0).cross (tp2 - tp0)) := by
    simp only [Vec3f.cross, Vec3f.sub_def, Vec3f.neg_def, Vec3f.mk.injEq]
    refine ⟨by ring, by ring, by ring⟩
  have hlen : ∀ c : Vec3f, (-c).length = c.length := by
    intro c
    simp only [Vec3f.length, Vec3f.neg_def]
    congr 1
    ring
  have hnorm : ∀ c : Vec3f, (-c).normalize = -(c.normalize) := by
    intro c
    rw [Vec3f.normalize, Vec3f.normalize, hlen]
    simp only [Vec3f.scale, Vec3f.neg_def, Vec3f.mk.injEq]
    refine ⟨by ring, by ring, by ring⟩
  have hdot : ∀ a b : Vec3f, (-a).dot b = -(a.dot b) := by
    intro a b
    simp only [Vec3f.dot, Vec3f.neg_def]
    ring
  rw [cullDot, cullDot, hcross, hnorm, hdot]

/-- C4: a triangle whose transformed-space face normal (normalized cross
product of the transformed edges) has strictly negative dot product with the
vector from its first transformed vertex to the camera is discarded whole by
`draw_entity`: its per-triangle body reports `culled` and the triangle
contributes no `fill_triangle` call (hence zero pixel writes) to the emitted
sequence; reversing the triangle's winding order negates the test value, so
the reversed triangle passes the cull test and is rasterized through one
`fill_triangle` call (provided its base-color sampling succeeds). -/
theorem draw_entity_culls_backfaces (camera : Vec3f) (projection : Mat4x4f)
    (width height : ℕ) (e : Entity) (i0 i1 i2 : ℕ) (v0 v1 v2 : Vertex)
    (rest : List (ℕ × ℕ × ℕ))
    (hv0 : e.shape.get i0 = some v0) (hv1 : e.shape.get i1 = some v1)
    (hv2 : e.shape.get i2 = some v2)
    (hcull : cullDot camera (transformedPos e v0) (transformedPos e v1)
        (transformedPos e v2) < 0) :
    drawEntityStep camera projection width height e (i0, i1, i2) =
      some TriOutcome.culled
    ∧ drawEntityGo camera projection width height e ((i0, i1, i2) :: rest) =
        drawEntityGo camera projection width height e rest
    ∧ (∀ c0, vertexBaseColor e v0 = some c0 →
        ∃ fc, drawEntityStep camera projection width height e (i0, i2, i1) =
          some (TriOutcome.rasterized fc)) := by
  have hc := hcull
  simp only [cullDot, transformedPos] at hc
  have h1 : drawEntityStep camera projection width height e (i0, i1, i2) =
      some TriOutcome.culled := by
    rw [drawEntityStep]
    dsimp only
    rw [hv0, hv1, hv2]
    dsimp only
    rw [if_pos hc]
  refine ⟨h1, ?_, ?_⟩
  · rw [drawEntityGo, h1]
  · intro c0 hc0
    have hns : ¬ (cullDot camera (transformedPos e v0) (transformedPos e v2)
        (transformedPos e v1) < 0) := by
      rw [cullDot_swap]
      linarith
    simp only [cullDot, transformedPos] at hns
    rw [drawEntityStep]
    dsimp only
    rw [hv0, hv2, hv1]
    dsimp only
    rw [if_neg hns, hc0]
    exact ⟨_, rfl⟩

/-- The concrete entity of the C4 witness: a single triangle in the plane
`z = 1` wound so that its face normal points away from a camera at the
origin. -/
def entC4 : Entity where
  shape := ⟨[⟨Vec3f.new 0 0 1, Vec3f.zero, none⟩,
             ⟨Vec3f.new 1 0 1, Vec3f.zero, none⟩,
             ⟨Vec3f.new 0 1 1, Vec3f.zero, none⟩], [(0, 1, 2)]⟩
  translation := Vec3f.zero
  sinTheta := 0
  cosTheta := 1
  sinPhi := 0
  cosPhi := 1
  scale := 1
  texture := none

/-- Witness for C4: the concrete triangle is culled as wound, and rasterized
after reversing its winding order. -/
theorem draw_entity_culls_backfaces_witness :
    drawEntityStep (Vec3f.new 0 0 0) Mat4x4f.identity 10 10 entC4 (0, 1, 2) =
      some TriOutcome.culled
    ∧ ∃ fc, drawEntityStep (Vec3f.new 0 0 0) Mat4x4f.identity 10 10 entC4 (0, 2, 1) =
        some (TriOutcome.rasterized fc) :=
  ⟨(draw_entity_culls_backfaces (Vec3f.new 0 0 0) Mat4x4f.identity 10 10 entC4
      0 1 2 ⟨Vec3f.new 0 0 1, Vec3f.zero, none⟩ ⟨Vec3f.new 1 0 1, Vec3f.zero, none⟩
      ⟨Vec3f.new 0 1 1, Vec3f.zero, none⟩ [] rfl rfl rfl
      (by with_unfolding_all decide)).1,
   (draw_entity_culls_backfaces (Vec3f.new 0 0 0) Mat4x4f.identity 10 10 entC4
      0 1 2 ⟨Vec3f.new 0 0 1, Vec3f.zero, none⟩ ⟨Vec3f.new 1 0 1, Vec3f.zero, none⟩
      ⟨Vec3f.new 0 1 1, Vec3f.zero, none⟩ [] rfl rfl rfl
      (by with_unfolding_all decide)).2.2 Color.WHITE rfl⟩

/-- If any vertex fetch of a triangle is out of range, the per-triangle body
of `draw_entity` panics (returns `none`). -/
theorem drawEntityStep_fetch_fault (camera : Vec3f) (projection : Mat4x4f)
    (width height : ℕ) (e : Entity) (tri : ℕ × ℕ × ℕ)
    (h : e.shape.get tri.1 = none ∨ e.shape.get tri.2.1 = none
      ∨ e.shape.get tri.2.2 = none) :
    drawEntityStep camera projection width height e tri = none := by
  rw [drawEntityStep]
  cases hg0 : e.shape.get tri.1 with
  | none => rfl
  | some v0 =>
    cases hg1 : e.shape.get tri.2.1 with
    | none => rfl
    | some v1 =>
      cases hg2 : e.shape.get tri.2.2 with
      | none => rfl
      | some v2 =>
        rw [hg0, hg1, hg2] at h
        rcases h with h | h | h <;> exact absurd h (by simp)

/-- If some triangle of the list has an out-of-range index, the `gen_normals`
loop faults. -/
theorem genNormalsLoop_oob (positions : List Vec3f) :
    ∀ (ts : List (ℕ × ℕ × ℕ)) (acc : List Vec3f) (t : ℕ × ℕ × ℕ), t ∈ ts →
      ¬(t.1 < positions.length ∧ t.2.1 < positions.length
        ∧ t.2.2 < positions.length) →
      genNormalsLoop positions ts acc = none := by
  intro ts
  induction ts with
  | nil =>
    intro acc t ht _
    exact absurd ht (List.not_mem_nil t)
  | cons t0 rest ih =>
    intro acc t ht hoob
    obtain ⟨i0, i1, i2⟩ := t0
    rw [genNormalsLoop]
    cases hg0 : positions.get? i0 with
    | none => rfl
    | some p0 =>
      cases hg1 : positions.get? i1 with
      | none => rfl
      | some p1 =>
        cases hg2 : positions.get? i2 with
        | none => rfl
        | some p2 =>
          dsimp only
          rcases List.mem_cons.mp ht with heq | hmem
          · exfalso
            apply hoob
            obtain ⟨hlt0, _⟩ := List.get?_eq_some.mp hg0
            obtain ⟨hlt1, _⟩ := List.get?_eq_some.mp hg1
            obtain ⟨hlt2, _⟩ := List.get?_eq_some.mp hg2
            rw [heq]
            exact ⟨hlt0, hlt1, hlt2⟩
          · exact ih _ t hmem hoob

/-- C7 counterexample: `Shape::with_normals` performs no index validation.
Constructing over a single vertex with triangle `(0, 0, 5)` succeeds and keeps
the out-of-range triangle; the fault surfaces only at rendering time, when
`draw_entity`'s vertex fetch for that triangle panics. -/
theorem shape_construction_defers_fault_cex :
    Shape.with_normals [Vec3f.new 0 0 0] [Vec3f.new 0 0 1] [(0, 0, 5)] =
      ⟨[⟨Vec3f.new 0 0 0, Vec3f.new 0 0 1, none⟩], [(0, 0, 5)]⟩
    ∧ drawEntityStep (Vec3f.new 0 0 0) Mat4x4f.identity 1 1
        ⟨Shape.with_normals [Vec3f.new 0 0 0] [Vec3f.new 0 0 1] [(0, 0, 5)],
         Vec3f.zero, 0, 1, 0, 1, 1, none⟩ (0, 0, 5) = none :=
  ⟨rfl, by with_unfolding_all rfl⟩

/-- C7 (amended): an out-of-range triangle index is a construction-time fault
only for the constructors that derive normals - `with_tris` and
`with_texcoords` fault inside `gen_normals` (and `load_from_file` runs the
same derivation). `Shape::new` and `Shape::with_normals` perform no
validation: construction succeeds with the triangle kept, and the fault is
deferred to rendering, where `draw_entity`'s vertex fetch panics on that
triangle. Nothing is silently clamped in either case. -/
theorem shape_index_fault_semantics
    (positions normals : List Vec3f) (texcoords : List (ℚ × ℚ))
    (triangles : List (ℕ × ℕ × ℕ)) (t : ℕ × ℕ × ℕ) (ht : t ∈ triangles)
    (hoob : positions.length ≤ t.1 ∨ positions.length ≤ t.2.1
      ∨ positions.length ≤ t.2.2) :
    Shape.with_tris positions triangles = none
    ∧ Shape.with_texcoords positions triangles texcoords = none
    ∧ (Shape.with_normals positions normals triangles).triangles = triangles
    ∧ (∀ (camera : Vec3f) (projection : Mat4x4f) (width height : ℕ)
        (translation : Vec3f) (st ct sp cp sc : ℚ) (tex : Option Texture),
        drawEntityStep camera projection width height
          ⟨Shape.with_normals positions normals triangles,
           translation, st, ct, sp, cp, sc, tex⟩ t = none) := by
  have hnot : ¬(t.1 < positions.length ∧ t.2.1 < positions.length
      ∧ t.2.2 < positions.length) := by
    rintro ⟨h1, h2, h3⟩
    rcases hoob with h | h | h <;> omega
  have hloop : genNormalsLoop positions triangles
      (List.replicate positions.length Vec3f.zero) = none :=
    genNormalsLoop_oob positions triangles _ t ht hnot
  have hgn : Shape.gen_normals positions triangles = none := by
    rw [Shape.gen_normals, hloop]
    rfl
  refine ⟨?_, ?_, rfl, ?_⟩
  · rw [Shape.with_tris, hgn]
    rfl
  · rw [Shape.with_texcoords, hgn]
    rfl
  · intro camera projection width height translation st ct sp cp sc tex
    apply drawEntityStep_fetch_fault
    have hva : (Shape.with_normals positions normals triangles).va.length
        ≤ positions.length := by
      rw [Shape.with_normals]
      simp [List.length_zip]
    rcases hoob with h | h | h
    · exact Or.inl (List.get?_eq_none.mpr (le_trans hva h))
    · exact Or.inr (Or.inl (List.get?_eq_none.mpr (le_trans hva h)))
    · exact Or.inr (Or.inr (List.get?_eq_none.mpr (le_trans hva h)))

/-- Witness for C7 at a concrete mesh: one vertex, triangle `(0, 0, 5)`. -/
theorem shape_index_fault_semantics_witness :
    Shape.with_tris [Vec3f.new 0 0 0] [(0, 0, 5)] = none
    ∧ Shape.with_texcoords [Vec3f.new 0 0 0] [(0, 0, 5)] [(0, 0)] = none :=
  ⟨(shape_index_fault_semantics [Vec3f.new 0 0 0] [] [(0, 0)] [(0, 0, 5)]
      (0, 0, 5) (by decide) (by decide)).1,
   (shape_index_fault_semantics [Vec3f.new 0 0 0] [] [(0, 0)] [(0, 0, 5)]
      (0, 0, 5) (by decide) (by decide)).2.1⟩

/-- `Canvas` from src/canvas.rs (the fields the pixel pipeline reads: pixel
buffer, dimensions, depth buffer; the window geometry, projection matrix and
camera do not participate in `set`). -/
structure Canvas where
  pixels : List (Option Color)
  width : ℕ
  height : ℕ
  depth_buffer : List ℚ
  deriving DecidableEq, Repr

/-- The buffer-size invariant `Canvas::new` and `Canvas::clear` establish:
both buffers hold `width * height` cells. -/
def Canvas.wf (c : Canvas) : Prop :=
  c.pixels.length = c.width * c.height
  ∧ c.depth_buffer.length = c.width * c.height

/-- `Canvas::clear`: fresh empty pixel buffer, depth buffer reset to the
`f32::MIN` sentinel (modelled by a parameter-free large negative constant is
not needed; the claims only use `clear`'s shape, so the sentinel is kept
abstract as the most negative value used by the embedding). -/
def Canvas.clear (c : Canvas) (sentinel : ℚ) : Canvas :=
  { c with
    pixels := List.replicate (c.width * c.height) none,
    depth_buffer := List.replicate (c.width * c.height) sentinel }

/-- `Canvas::set` (src/canvas.rs lines 27-37): bounds-check and silently
return when `(x, y)` is outside the canvas; otherwise depth-test against the
stored depth (`return` when the stored depth is strictly greater) and write
color and depth. The two buffer indexings are checked; `none` models the panic
(never reached under `Canvas.wf`, as proved below). -/
def Canvas.set (c : Canvas) (x y : ℤ) (color : Color) (depth : ℚ) :
    Option Canvas :=
  if ¬(0 ≤ x ∧ x < (c.width : ℤ) ∧ 0 ≤ y ∧ y < (c.height : ℤ)) then
    some c
  else
    let index : ℕ := (y * (c.width : ℤ) + x).toNat
    match c.depth_buffer.get? index with
    | none => none
    | some stored =>
      if stored > depth then some c
      else if index < c.pixels.length then
        some { c with
          pixels := c.pixels.set index (some color),
          depth_buffer := c.depth_buffer.set index depth }
      else none

/-- C1: on a well-formed canvas, `Canvas::set` never faults: out-of-bounds
coordinates leave the canvas untouched (silently skipped), and in-bounds
coordinates write BOTH the color and the depth exactly when the new depth is
greater than or equal to the stored depth (larger-wins convention), leaving
both buffers unchanged otherwise. -/
theorem canvas_set_spec (c : Canvas) (x y : ℤ) (color : Color) (depth : ℚ)
    (hwf : c.wf) :
    (¬(0 ≤ x ∧ x < (c.width : ℤ) ∧ 0 ≤ y ∧ y < (c.height : ℤ)) →
      c.set x y color depth = some c)
    ∧ ((0 ≤ x ∧ x < (c.width : ℤ) ∧ 0 ≤ y ∧ y < (c.height : ℤ)) →
      (depth ≥ c.depth_buffer.getD (y * (c.width : ℤ) + x).toNat 0 →
        c.set x y color depth = some { c with
          pixels := c.pixels.set (y * (c.width : ℤ) + x).toNat (some color),
          depth_buffer := c.depth_buffer.set (y * (c.width : ℤ) + x).toNat depth })
      ∧ (depth < c.depth_buffer.getD (y * (c.width : ℤ) + x).toNat 0 →
        c.set x y color depth = some c)) := by
  obtain ⟨hp, hd⟩ := hwf
  constructor
  · intro hout
    rw [Canvas.set, if_pos hout]
  · rintro ⟨hx0, hxw, hy0, hyh⟩
    have hin : ¬¬(0 ≤ x ∧ x < (c.width : ℤ) ∧ 0 ≤ y ∧ y < (c.height : ℤ)) :=
      not_not_intro ⟨hx0, hxw, hy0, hyh⟩
    have hidx : (y * (c.width : ℤ) + x).toNat < c.width * c.height := by
      have hyw : (y + 1) * (c.width : ℤ) ≤ (c.height : ℤ) * (c.width : ℤ) :=
        mul_le_mul_of_nonneg_right (by omega) (by positivity)
      have hlt : y * (c.width : ℤ) + x < (c.height : ℤ) * (c.width : ℤ) := by
        nlinarith
      have hnn : 0 ≤ y * (c.width : ℤ) + x := by positivity
      have hcomm : (c.height : ℤ) * (c.width : ℤ) = ((c.width * c.height : ℕ) : ℤ) := by
        push_cast
        ring
      omega
    have hdb : (y * (c.width : ℤ) + x).toNat < c.depth_buffer.length := by
      rw [hd]; exact hidx
    have hpx : (y * (c.width : ℤ) + x).toNat < c.pixels.length := by
      rw [hp]; exact hidx
    have hget : c.depth_buffer.get? (y * (c.width : ℤ) + x).toNat =
        some (c.depth_buffer.get ⟨_, hdb⟩) := List.get?_eq_get hdb
    have hgetD : c.depth_buffer.getD (y * (c.width : ℤ) + x).toNat 0 =
        c.depth_buffer.get ⟨_, hdb⟩ := by
      rw [List.getD, hget]
      rfl
    constructor
    · intro hge
      rw [Canvas.set, if_neg hin]
      dsimp only
      rw [hget]
      rw [hgetD] at hge
      dsimp only
      rw [if_neg (not_lt.mpr hge), if_pos hpx]
    · intro hlt
      rw [Canvas.set, if_neg hin]
      dsimp only
      rw [hget]
      rw [hgetD] at hlt
      dsimp only
      rw [if_pos hlt]

/-- Witness for C1: on a 1x1 canvas, an out-of-bounds write is skipped, a
depth-passing write updates both buffers, and a depth-failing write leaves
the canvas unchanged. -/
theorem canvas_set_spec_witness :
    (Canvas.mk [none] 1 1 [0]).set (-1) 0 Color.WHITE 5 =
      some (Canvas.mk [none] 1 1 [0])
    ∧ (Canvas.mk [none] 1 1 [0]).set 0 0 Color.WHITE 5 =
      some { Canvas.mk [none] 1 1 [0] with
        pixels := [none].set (((0 : ℤ) * ((1 : ℕ) : ℤ) + 0).toNat) (some Color.WHITE),
        depth_buffer := [(0 : ℚ)].set (((0 : ℤ) * ((1 : ℕ) : ℤ) + 0).toNat) 5 }
    ∧ (Canvas.mk [none] 1 1 [(10 : ℚ)]).set 0 0 Color.WHITE 5 =
      some (Canvas.mk [none] 1 1 [(10 : ℚ)]) :=
  ⟨(canvas_set_spec (Canvas.mk [none] 1 1 [0]) (-1) 0 Color.WHITE 5
      ⟨rfl, rfl⟩).1 (by decide),
   ((canvas_set_spec (Canvas.mk [none] 1 1 [0]) 0 0 Color.WHITE 5
      ⟨rfl, rfl⟩).2 (by decide)).1 (by with_unfolding_all decide),
   ((canvas_set_spec (Canvas.mk [none] 1 1 [(10 : ℚ)]) 0 0 Color.WHITE 5
      ⟨rfl, rfl⟩).2 (by decide)).2 (by with_unfolding_all decide)⟩

/-- The fixed sub-cell offset order of `Canvas::to_s` (`INDEX_OFFSETS`):
`(dx, dy)` pairs, in the order that assigns glyph bit `i` to entry `i`. -/
def INDEX_OFFSETS : List (ℕ × ℕ) :=
  [(0, 0), (0, 1), (0, 2), (1, 0), (1, 1), (1, 2), (0, 3), (1, 3)]

theorem INDEX_OFFSETS_enum : INDEX_OFFSETS.enum =
    [(0, (0, 0)), (1, (0, 1)), (2, (0, 2)), (3, (1, 0)),
     (4, (1, 1)), (5, (1, 2)), (6, (0, 3)), (7, (1, 3))] := rfl

/-- One terminal output fragment of `Canvas::to_s` (screen clear, cursor
goto, foreground color escape, glyph character, in the order emitted). -/
inductive Frag where
  | clearAll : Frag
  | goto : ℕ → ℕ → Frag
  | fg : Color → Frag
  | glyph : ℕ → Frag
  deriving DecidableEq, Repr

/-- The inner loop of `Canvas::to_s` over one 2x4 block: for each enumerated
offset `(i, (dx, dy))`, fetch pixel `(pix_row + dy) * width + (pix_col + dx)`
(`none` models the indexing panic), and when it is occupied add `1 << i`
(that is, `2 ^ i`) to the glyph code and an eighth of the pixel color to the
block color (checked `u8` additions; `none` models the overflow fault). -/
def blockLoop (pixels : List (Option Color)) (width pix_row pix_col : ℕ) :
    List (ℕ × (ℕ × ℕ)) → ℕ → Color → Option (ℕ × Color)
  | [], code, cel => some (code, cel)
  | (i, (dx, dy)) :: rest, code, cel =>
    match pixels.get? ((pix_row + dy) * width + (pix_col + dx)) with
    | none => none
    | some none => blockLoop pixels width pix_row pix_col rest code cel
    | some (some p_color) =>
      match cel.addChecked (p_color.mulF (1 / 8)) with
      | none => none
      | some cel2 =>
        blockLoop pixels width pix_row pix_col rest (code + 2 ^ i) cel2

/-- The glyph code and accumulated color of block `(row, col)` in `to_s`:
the loop starts at the braille base `0x2800` and `Color::BLACK`. -/
def blockResult (pixels : List (Option Color)) (width row col : ℕ) :
    Option (ℕ × Color) :=
  blockLoop pixels width (row * 4) (col * 2) INDEX_OFFSETS.enum 0x2800 Color.BLACK

/-- The fragments one block contributes to the `to_s` output: nothing at all
when the glyph code is still `0x2800` (no occupied sub-cell); otherwise a
cursor goto (the `usize` coordinates truncated to `u16`, then saturating
`+ 1`), a foreground color escape, and the glyph. -/
def blockFrags (pixels : List (Option Color)) (width row col : ℕ) :
    Option (List Frag) :=
  (blockResult pixels width row col).map (fun rc =>
    if rc.1 ≠ 0x2800 then
      [Frag.goto (min (col % 65536 + 1) 65535) (min (row % 65536 + 1) 65535),
       Frag.fg rc.2, Frag.glyph rc.1]
    else [])

/-- The column loop of `Canvas::to_s` for one block row. -/
def tosCols (c : Canvas) (row : ℕ) : List ℕ → Option (List Frag)
  | [] => some []
  | col :: rest =>
    match blockFrags c.pixels c.width row col with
    | none => none
    | some fs => (tosCols c row rest).map (fun l => fs ++ l)

/-- The row loop of `Canvas::to_s`. -/
def tosRows (c : Canvas) : List ℕ → Option (List Frag)
  | [] => some []
  | row :: rest =>
    match tosCols c row (List.range (c.width / 2)) with
    | none => none
    | some fs => (tosRows c rest).map (fun l => fs ++ l)

/-- `Canvas::to_s` at the fragment level: a full-screen clear followed by the
row-major 2x4 blocks. -/
def Canvas.to_s (c : Canvas) : Option (List Frag) :=
  (tosRows c (List.range (c.height / 4))).map (fun l => Frag.clearAll :: l)

/-- The pixel fetched for sub-cell `i` of block `(row, col)` in `to_s`. -/
def cellAt (pixels : List (Option Color)) (width row col : ℕ) (i : Fin 8) :
    Option (Option Color) :=
  let off := INDEX_OFFSETS.getD i.val (0, 0)
  pixels.get? ((row * 4 + off.2) * width + (col * 2 + off.1))

/-- Every channel of `Color * f32` is a `u8` value (at most 255). -/
theorem Color.mulF_le (c : Color) (rhs : ℚ) :
    (c.mulF rhs).r ≤ 255 ∧ (c.mulF rhs).g ≤ 255 ∧ (c.mulF rhs).b ≤ 255 := by
  rw [Color.mulF]
  split_ifs <;>
    first
      | exact ⟨by decide, by decide, by decide⟩
      | refine ⟨?_, ?_, ?_⟩ <;>
          · show min 255 _ ≤ 255
            exact min_le_left _ _

/-- C5: in the `Canvas::to_s` compositor, a 2x4 block with exactly one
occupied sub-cell (at offset position `i` of the fixed 8-entry order) emits
exactly a cursor goto, one color escape, and one glyph whose character code is
the braille base `0x2800` plus the single bit `2 ^ i`; a block with zero
occupied sub-cells contributes no output whatsoever. -/
theorem to_s_block_compositing (pixels : List (Option Color))
    (width row col : ℕ) :
    (∀ (i : Fin 8) (pc : Color),
      cellAt pixels width row col i = some (some pc) →
      (∀ j : Fin 8, j ≠ i → cellAt pixels width row col j = some none) →
      ∃ cel, blockFrags pixels width row col =
          some [Frag.goto (min (col % 65536 + 1) 65535)
                  (min (row % 65536 + 1) 65535),
                Frag.fg cel, Frag.glyph (0x2800 + 2 ^ i.val)]
        ∧ Color.BLACK.addChecked (pc.mulF (1 / 8)) = some cel)
    ∧ ((∀ j : Fin 8, cellAt pixels width row col j = some none) →
      blockFrags pixels width row col = some []) := by
  have hcond : ∀ pc : Color,
      Color.BLACK.r + (pc.mulF (1 / 8)).r ≤ 255
      ∧ Color.BLACK.g + (pc.mulF (1 / 8)).g ≤ 255
      ∧ Color.BLACK.b + (pc.mulF (1 / 8)).b ≤ 255 := by
    intro pc
    obtain ⟨b1, b2, b3⟩ := Color.mulF_le pc (1 / 8)
    exact ⟨by simpa [Color.BLACK] using b1, by simpa [Color.BLACK] using b2,
      by simpa [Color.BLACK] using b3⟩
  have hadd : ∀ pc : Color, Color.BLACK.addChecked (pc.mulF (1 / 8)) =
      some ⟨Color.BLACK.r + (pc.mulF (1 / 8)).r,
            Color.BLACK.g + (pc.mulF (1 / 8)).g,
            Color.BLACK.b + (pc.mulF (1 / 8)).b⟩ := by
    intro pc
    rw [Color.addChecked, if_pos (hcond pc)]
  constructor
  · intro i pc hocc hrest
    fin_cases i
    · have ho : pixels.get? ((row * 4 + 0) * width + (col * 2 + 0)) = some (some pc) := hocc
      have h1 : pixels.get? ((row * 4 + 1) * width + (col * 2 + 0)) = some none := hrest ⟨1, by omega⟩ (by decide)
      have h2 : pixels.get? ((row * 4 + 2) * width + (col * 2 + 0)) = some none := hrest ⟨2, by omega⟩ (by decide)
      have h3 : pixels.get? ((row * 4 + 0) * width + (col * 2 + 1)) = some none := hrest ⟨3, by omega⟩ (by decide)
      have h4 : pixels.get? ((row * 4 + 1) * width + (col * 2 + 1)) = some none := hrest ⟨4, by omega⟩ (by decide)
      have h5 : pixels.get? ((row * 4 + 2) * width + (col * 2 + 1)) = some none := hrest ⟨5, by omega⟩ (by decide)
      have h6 : pixels.get? ((row * 4 + 3) * width + (col * 2 + 0)) = some none := hrest ⟨6, by omega⟩ (by decide)
      have h7 : pixels.get? ((row * 4 + 3) * width + (col * 2 + 1)) = some none := hrest ⟨7, by omega⟩ (by decide)
      refine ⟨_, ?_, hadd pc⟩
      simp only [blockFrags, blockResult, INDEX_OFFSETS_enum, blockLoop,
        ho, h1, h2, h3, h4, h5, h6, h7, hadd pc, Option.map_some']
      norm_num
    · have ho : pixels.get? ((row * 4 + 1) * width + (col * 2 + 0)) = some (some pc) := hocc
      have h0 : pixels.get? ((row * 4 + 0) * width + (col * 2 + 0)) = some none := hrest ⟨0, by omega⟩ (by decide)
      have h2 : pixels.get? ((row * 4 + 2) * width + (col * 2 + 0)) = some none := hrest ⟨2, by omega⟩ (by decide)
      have h3 : pixels.get? ((row * 4 + 0) * width + (col * 2 + 1)) = some none := hrest ⟨3, by omega⟩ (by decide)
      have h4 : pixels.get? ((row * 4 + 1) * width + (col * 2 + 1)) = some none := hrest ⟨4, by omega⟩ (by decide)
      have h5 : pixels.get? ((row * 4 + 2) * width + (col * 2 + 1)) = some none := hrest ⟨5, by omega⟩ (by decide)
      have h6 : pixels.get? ((row * 4 + 3) * width + (col * 2 + 0)) = some none := hrest ⟨6, by omega⟩ (by decide)
      have h7 : pixels.get? ((row * 4 + 3) * width + (col * 2 + 1)) = some none := hrest ⟨7, by omega⟩ (by decide)
      refine ⟨_, ?_, hadd pc⟩
      simp only [blockFrags, blockResult, INDEX_OFFSETS_enum, blockLoop,
        ho, h0, h2, h3, h4, h5, h6, h7, hadd pc, Option.map_some']
      norm_num
    · have ho : pixels.get? ((row * 4 + 2) * width + (col * 2 + 0)) = some (some pc) := hocc
      have h0 : pixels.get? ((row * 4 + 0) * width + (col * 2 + 0)) = some none := hrest ⟨0, by omega⟩ (by decide)
      have h1 : pixels.get? ((row * 4 + 1) * width + (col * 2 + 0)) = some none := hrest ⟨1, by omega⟩ (by decide)
      have h3 : pixels.get? ((row * 4 + 0) * width + (col * 2 + 1)) = some none := hrest ⟨3, by omega⟩ (by decide)
      have h4 : pixels.get? ((row * 4 + 1) * width + (col * 2 + 1)) = some none := hrest ⟨4, by omega⟩ (by decide)
      have h5 : pixels.get? ((row * 4 + 2) * width + (col * 2 + 1)) = some none := hrest ⟨5, by omega⟩ (by decide)
      have h6 : pixels.get? ((row * 4 + 3) * width + (col * 2 + 0)) = some none := hrest ⟨6, by omega⟩ (by decide)
      have h7 : pixels.get? ((row * 4 + 3) * width + (col * 2 + 1)) = some none := hrest ⟨7, by omega⟩ (by decide)
      refine ⟨_, ?_, hadd pc⟩
      simp only [blockFrags, blockResult, INDEX_OFFSETS_enum, blockLoop,
        ho, h0, h1, h3, h4, h5, h6, h7, hadd pc, Option.map_some']
      norm_num
    · have ho : pixels.get? ((row * 4 + 0) * width + (col * 2 + 1)) = some (some pc) := hocc
      have h0 : pixels.get? ((row * 4 + 0) * width + (col * 2 + 0)) = some none := hrest ⟨0, by omega⟩ (by decide)
      have h1 : pixels.get? ((row * 4 + 1) * width + (col * 2 + 0)) = some none := hrest ⟨1, by omega⟩ (by decide)
      have h2 : pixels.get? ((row * 4 + 2) * width + (col * 2 + 0)) = some none := hrest ⟨2, by omega⟩ (by decide)
      have h4 : pixels.get? ((row * 4 + 1) * width + (col * 2 + 1)) = some none := hrest ⟨4, by omega⟩ (by decide)
      have h5 : pixels.get? ((row * 4 + 2) * width + (col * 2 + 1)) = some none := hrest ⟨5, by omega⟩ (by decide)
      have h6 : pixels.get? ((row * 4 + 3) * width + (col * 2 + 0)) = some none := hrest ⟨6, by omega⟩ (by decide)
      have h7 : pixels.get? ((row * 4 + 3) * width + (col * 2 + 1)) = some none := hrest ⟨7, by omega⟩ (by decide)
      refine ⟨_, ?_, hadd pc⟩
      simp only [blockFrags, blockResult, INDEX_OFFSETS_enum, blockLoop,
        ho, h0, h1, h2, h4, h5, h6, h7, hadd pc, Option.map_some']
      norm_num
    · have ho : pixels.get? ((row * 4 + 1) * width + (col * 2 + 1)) = some (some pc) := hocc
      have h0 : pixels.get? ((row * 4 + 0) * width + (col * 2 + 0)) = some none := hrest ⟨0, by omega⟩ (by decide)
      have h1 : pixels.get? ((row * 4 + 1) * width + (col * 2 + 0)) = some none := hrest ⟨1, by omega⟩ (by decide)
      have h2 : pixels.get? ((row * 4 + 2) * width + (col * 2 + 0)) = some none := hrest ⟨2, by omega⟩ (by decide)
      have h3 : pixels.get? ((row * 4 + 0) * width + (col * 2 + 1)) = some none := hrest ⟨3, by omega⟩ (by decide)
      have h5 : pixels.get? ((row * 4 + 2) * width + (col * 2 + 1)) = some none := hrest ⟨5, by omega⟩ (by decide)
      have h6 : pixels.get? ((row * 4 + 3) * width + (col * 2 + 0)) = some none := hrest ⟨6, by omega⟩ (by decide)
      have h7 : pixels.get? ((row * 4 + 3) * width + (col * 2 + 1)) = some none := hrest ⟨7, by omega⟩ (by decide)
      refine ⟨_, ?_, hadd pc⟩
      simp only [blockFrags, blockResult, INDEX_OFFSETS_enum, blockLoop,
        ho, h0, h1, h2, h3, h5, h6, h7, hadd pc, Option.map_some']
      norm_num
    · have ho : pixels.get? ((row * 4 + 2) * width + (col * 2 + 1)) = some (some pc) := hocc
      have h0 : pixels.get? ((row * 4 + 0) * width + (col * 2 + 0)) = some none := hrest ⟨0, by omega⟩ (by decide)
      have h1 : pixels.get? ((row * 4 + 1) * width + (col * 2 + 0)) = some none := hrest ⟨1, by omega⟩ (by decide)
      have h2 : pixels.get? ((row * 4 + 2) * width + (col * 2 + 0)) = some none := hrest ⟨2, by omega⟩ (by decide)
      have h3 : pixels.get? ((row * 4 + 0) * width + (col * 2 + 1)) = some none := hrest ⟨3, by omega⟩ (by decide)
      have h4 : pixels.get? ((row * 4 + 1) * width + (col * 2 + 1)) = some none := hrest ⟨4, by omega⟩ (by decide)
      have h6 : pixels.get? ((row * 4 + 3) * width + (col * 2 + 0)) = some none := hrest ⟨6, by omega⟩ (by decide)
      have h7 : pixels.get? ((row * 4 + 3) * width + (col * 2 + 1)) = some none := hrest ⟨7, by omega⟩ (by decide)
      refine ⟨_, ?_, hadd pc⟩
      simp only [blockFrags, blockResult, INDEX_OFFSETS_enum, blockLoop,
        ho, h0, h1, h2, h3, h4, h6, h7, hadd pc, Option.map_some']
      norm_num
    · have ho : pixels.get? ((row * 4 + 3) * width + (col * 2 + 0)) = some (some pc) := hocc
      have h0 : pixels.get? ((row * 4 + 0) * width + (col * 2 + 0)) = some none := hrest ⟨0, by omega⟩ (by decide)
      have h1 : pixels.get? ((row * 4 + 1) * width + (col * 2 + 0)) = some none := hrest ⟨1, by omega⟩ (by decide)
      have h2 : pixels.get? ((row * 4 + 2) * width + (col * 2 + 0)) = some none := hrest ⟨2, by omega⟩ (by decide)
      have h3 : pixels.get? ((row * 4 + 0) * width + (col * 2 + 1)) = some none := hrest ⟨3, by omega⟩ (by decide)
      have h4 : pixels.get? ((row * 4 + 1) * width + (col * 2 + 1)) = some none := hrest ⟨4, by omega⟩ (by decide)
      have h5 : pixels.get? ((row * 4 + 2) * width + (col * 2 + 1)) = some none := hrest ⟨5, by omega⟩ (by decide)
      have h7 : pixels.get? ((row * 4 + 3) * width + (col * 2 + 1)) = some none := hrest ⟨7, by omega⟩ (by decide)
      refine ⟨_, ?_, hadd pc⟩
      simp only [blockFrags, blockResult, INDEX_OFFSETS_enum, blockLoop,
        ho, h0, h1, h2, h3, h4, h5, h7, hadd pc, Option.map_some']
      norm_num
    · have ho : pixels.get? ((row * 4 + 3) * width + (col * 2 + 1)) = some (some pc) := hocc
      have h0 : pixels.get? ((row * 4 + 0) * width + (col * 2 + 0)) = some none := hrest ⟨0, by omega⟩ (by decide)
      have h1 : pixels.get? ((row * 4 + 1) * width + (col * 2 + 0)) = some none := hrest ⟨1, by omega⟩ (by decide)
      have h2 : pixels.get? ((row * 4 + 2) * width + (col * 2 + 0)) = some none := hrest ⟨2, by omega⟩ (by decide)
      have h3 : pixels.get? ((row * 4 + 0) * width + (col * 2 + 1)) = some none := hrest ⟨3, by omega⟩ (by decide)
      have h4 : pixels.get? ((row * 4 + 1) * width + (col * 2 + 1)) = some none := hrest ⟨4, by omega⟩ (by decide)
      have h5 : pixels.get? ((row * 4 + 2) * width + (col * 2 + 1)) = some none := hrest ⟨5, by omega⟩ (by decide)
      have h6 : pixels.get? ((row * 4 + 3) * width + (col * 2 + 0)) = some none := hrest ⟨6, by omega⟩ (by decide)
      refine ⟨_, ?_, hadd pc⟩
      simp only [blockFrags, blockResult, INDEX_OFFSETS_enum, blockLoop,
        ho, h0, h1, h2, h3, h4, h5, h6, hadd pc, Option.map_some']
      norm_num
  · intro hall
    have h0 : pixels.get? ((row * 4 + 0) * width + (col * 2 + 0)) = some none := hall ⟨0, by omega⟩
    have h1 : pixels.get? ((row * 4 + 1) * width + (col * 2 + 0)) = some none := hall ⟨1, by omega⟩
    have h2 : pixels.get? ((row * 4 + 2) * width + (col * 2 + 0)) = some none := hall ⟨2, by omega⟩
    have h3 : pixels.get? ((row * 4 + 0) * width + (col * 2 + 1)) = some none := hall ⟨3, by omega⟩
    have h4 : pixels.get? ((row * 4 + 1) * width + (col * 2 + 1)) = some none := hall ⟨4, by omega⟩
    have h5 : pixels.get? ((row * 4 + 2) * width + (col * 2 + 1)) = some none := hall ⟨5, by omega⟩
    have h6 : pixels.get? ((row * 4 + 3) * width + (col * 2 + 0)) = some none := hall ⟨6, by omega⟩
    have h7 : pixels.get? ((row * 4 + 3) * width + (col * 2 + 1)) = some none := hall ⟨7, by omega⟩
    simp only [blockFrags, blockResult, INDEX_OFFSETS_enum, blockLoop,
      h0, h1, h2, h3, h4, h5, h6, h7, Option.map_some']
    norm_num

/-- Witness for C5: a concrete 2x4 block with exactly one occupied sub-cell
(the top-left one, bit 0) emits the three fragments with glyph
`0x2800 + 1`; the all-empty block emits nothing. -/
theorem to_s_block_compositing_witness :
    (∃ cel, blockFrags
        [some Color.WHITE, none, none, none, none, none, none, none] 2 0 0 =
        some [Frag.goto (min (0 % 65536 + 1) 65535) (min (0 % 65536 + 1) 65535),
              Frag.fg cel, Frag.glyph (0x2800 + 2 ^ (0 : Fin 8).val)]
      ∧ Color.BLACK.addChecked (Color.WHITE.mulF (1 / 8)) = some cel)
    ∧ blockFrags [none, none, none, none, none, none, none, none] 2 0 0 =
        some [] :=
  ⟨(to_s_block_compositing
      [some Color.WHITE, none, none, none, none, none, none, none] 2 0 0).1
      0 Color.WHITE (by decide) (by decide),
   (to_s_block_compositing
      [none, none, none, none, none, none, none, none] 2 0 0).2 (by decide)⟩

/-- C10 counterexample: the claim's parenthetical "(and at least 1 for a
non-black source color)" is false per channel: `Color::new(0,0,200)` is not
black, yet multiplying by `1/8` leaves its red channel at 0 (the
`Color::new(1,1,1)` fallback only triggers when ALL channels truncate to 0). -/
theorem color_mul_eighth_zero_channel_cex :
    (Color.new 0 0 200).is_not_black = true
    ∧ ((Color.new 0 0 200).mulF (1 / 8)).r = 0
    ∧ ((Color.new 0 0 200).mulF (1 / 8)).b = 25 :=
  ⟨rfl, by with_unfolding_all rfl, by with_unfolding_all rfl⟩

/-- Every channel of a valid (u8) color scaled by `1/8` is at most 31
(`255 * 1/8 = 31.875` truncates to 31; the non-black fallback yields 1). -/
theorem Color.mulF_eighth_le (c : Color) (hc : c.valid) :
    (c.mulF (1 / 8)).r ≤ 31 ∧ (c.mulF (1 / 8)).g ≤ 31
    ∧ (c.mulF (1 / 8)).b ≤ 31 := by
  obtain ⟨h1, h2, h3⟩ := hc
  have hem : ∀ n : ℕ, n ≤ 255 → f32ToU8 ((n : ℚ) * (1 / 8)) ≤ 31 := by
    intro n hn
    rw [f32ToU8, truncQ, if_pos (by positivity)]
    have hfl : ⌊(n : ℚ) * (1 / 8)⌋ < 32 := by
      rw [Int.floor_lt]
      have hcast : (n : ℚ) ≤ 255 := by exact_mod_cast hn
      nlinarith
    have hnn : (0 : ℤ) ≤ ⌊(n : ℚ) * (1 / 8)⌋ := Int.floor_nonneg.mpr (by positivity)
    omega
  have hclamp : (if (1 : ℚ) / 8 < 0 then (0 : ℚ)
      else if (1 : ℚ) / 8 > 1 then 1 else 1 / 8) = 1 / 8 := by norm_num
  simp only [Color.mulF, hclamp]
  split_ifs
  · exact ⟨by decide, by decide, by decide⟩
  · exact ⟨hem c.r h1, hem c.g h2, hem c.b h3⟩

/-- The color accumulation of the `to_s` block loop never overflows: starting
from a color with headroom `31 * offs.length` per channel, the loop (over
occupied cells holding valid u8 colors) always succeeds and grows each channel
by at most 31 per step. -/
theorem blockLoop_bounded (pixels : List (Option Color))
    (width pix_row pix_col : ℕ)
    (hvalid : ∀ oc ∈ pixels, (oc.getD Color.BLACK).valid) :
    ∀ (offs : List (ℕ × (ℕ × ℕ))) (code : ℕ) (cel : Color),
      cel.r + 31 * offs.length ≤ 255 →
      cel.g + 31 * offs.length ≤ 255 →
      cel.b + 31 * offs.length ≤ 255 →
      (∀ e ∈ offs,
        (pixels.get? ((pix_row + e.2.2) * width + (pix_col + e.2.1))).isSome) →
      ∃ res, blockLoop pixels width pix_row pix_col offs code cel = some res
        ∧ res.2.r ≤ cel.r + 31 * offs.length
        ∧ res.2.g ≤ cel.g + 31 * offs.length
        ∧ res.2.b ≤ cel.b + 31 * offs.length := by
  intro offs
  induction offs with
  | nil =>
    intro code cel _ _ _ _
    exact ⟨(code, cel), rfl, by simp, by simp, by simp⟩
  | cons e rest ih =>
    intro code cel h1 h2 h3 hfetch
    obtain ⟨i, dx, dy⟩ := e
    simp only [List.length_cons] at h1 h2 h3 ⊢
    have hs := hfetch (i, dx, dy) (List.mem_cons_self _ _)
    rw [blockLoop]
    cases hp : pixels.get? ((pix_row + dy) * width + (pix_col + dx)) with
    | none =>
      rw [hp] at hs
      exact absurd hs (by simp)
    | some opt =>
      cases opt with
      | none =>
        obtain ⟨res, hres, hb1, hb2, hb3⟩ := ih code cel
          (by omega) (by omega) (by omega)
          (fun e he => hfetch e (List.mem_cons_of_mem _ he))
        exact ⟨res, hres, by omega, by omega, by omega⟩
      | some pc =>
        have hpcv : pc.valid := by
          have hmem : (some pc) ∈ pixels := List.get?_mem hp
          simpa using hvalid (some pc) hmem
        obtain ⟨c1, c2, c3⟩ := Color.mulF_eighth_le pc hpcv
        have hadd : cel.addChecked (pc.mulF (1 / 8)) =
            some ⟨cel.r + (pc.mulF (1 / 8)).r, cel.g + (pc.mulF (1 / 8)).g,
                  cel.b + (pc.mulF (1 / 8)).b⟩ := by
          rw [Color.addChecked, if_pos ⟨by omega, by omega, by omega⟩]
        dsimp only
        rw [hadd]
        dsimp only
        obtain ⟨res, hres, hb1, hb2, hb3⟩ := ih (code + 2 ^ i)
          ⟨cel.r + (pc.mulF (1 / 8)).r, cel.g + (pc.mulF (1 / 8)).g,
           cel.b + (pc.mulF (1 / 8)).b⟩
          (by dsimp only; omega) (by dsimp only; omega) (by dsimp only; omega)
          (fun e he => hfetch e (List.mem_cons_of_mem _ he))
        refine ⟨res, hres, ?_, ?_, ?_⟩ <;> dsimp only at hb1 hb2 hb3 <;> omega

/-- C10 (amended): in the `to_s` compositor, each occupied sub-cell
contributes `p_color * (1/8)`, whose channels are each at most 31 for a valid
u8 source color (the non-black fallback contributes 1s; a channel can be 0);
at most 8 sub-cells contribute per block, so every accumulated channel is at
most `8 * 31 = 248` and the checked u8 additions of the block color never
overflow (no wrap, no panic). -/
theorem to_s_color_accumulation_safe (pixels : List (Option Color))
    (width row col : ℕ)
    (hvalid : ∀ oc ∈ pixels, (oc.getD Color.BLACK).valid)
    (hfetch : ∀ j : Fin 8, (cellAt pixels width row col j).isSome) :
    (∀ c : Color, c.valid → (c.mulF (1 / 8)).r ≤ 31
      ∧ (c.mulF (1 / 8)).g ≤ 31 ∧ (c.mulF (1 / 8)).b ≤ 31)
    ∧ ∃ code cel, blockResult pixels width row col = some (code, cel)
        ∧ cel.r ≤ 248 ∧ cel.g ≤ 248 ∧ cel.b ≤ 248 := by
  refine ⟨fun c hc => Color.mulF_eighth_le c hc, ?_⟩
  have hf : ∀ e ∈ INDEX_OFFSETS.enum,
      (pixels.get? ((row * 4 + e.2.2) * width + (col * 2 + e.2.1))).isSome := by
    intro e he
    fin_cases he
    · exact hfetch ⟨0, by omega⟩
    · exact hfetch ⟨1, by omega⟩
    · exact hfetch ⟨2, by omega⟩
    · exact hfetch ⟨3, by omega⟩
    · exact hfetch ⟨4, by omega⟩
    · exact hfetch ⟨5, by omega⟩
    · exact hfetch ⟨6, by omega⟩
    · exact hfetch ⟨7, by omega⟩
  obtain ⟨res, hres, hb1, hb2, hb3⟩ :=
    blockLoop_bounded pixels width (row * 4) (col * 2) hvalid
      INDEX_OFFSETS.enum 0x2800 Color.BLACK
      (by decide) (by decide) (by decide) hf
  refine ⟨res.1, res.2, ?_, ?_, ?_, ?_⟩
  · rw [blockResult, hres]
  · simpa using hb1
  · simpa using hb2
  · simpa using hb3

/-- Witness for C10: a fully occupied white 2x4 block accumulates to
`(248, 248, 248)` without overflow. -/
theorem to_s_color_accumulation_safe_witness :
    ∃ code cel, blockResult
        [some Color.WHITE, some Color.WHITE, some Color.WHITE, some Color.WHITE,
         some Color.WHITE, some Color.WHITE, some Color.WHITE, some Color.WHITE]
        2 0 0 = some (code, cel)
      ∧ cel.r ≤ 248 ∧ cel.g ≤ 248 ∧ cel.b ≤ 248 :=
  (to_s_color_accumulation_safe
    [some Color.WHITE, some Color.WHITE, some Color.WHITE, some Color.WHITE,
     some Color.WHITE, some Color.WHITE, some Color.WHITE, some Color.WHITE]
    2 0 0 (by decide) (by decide)).2

/-- An IEEE-754-style value for the one claim that is about infinity/NaN
behaviour: a finite rational, positive/negative infinity, or NaN. (Signed
zero is not distinguished; the inputs below only produce `+0`.) -/
inductive FF where
  | fin : ℚ → FF
  | pinf : FF
  | ninf : FF
  | nan : FF
  deriving DecidableEq, Repr

/-- IEEE multiplication: NaN propagates; `0 * ±∞ = NaN`; infinities keep the
sign rules; finite values multiply exactly. -/
def FF.mul : FF → FF → FF
  | FF.nan, _ => FF.nan
  | _, FF.nan => FF.nan
  | FF.fin a, FF.fin b => FF.fin (a * b)
  | FF.fin a, FF.pinf =>
    if a > 0 then FF.pinf else if a < 0 then FF.ninf else FF.nan
  | FF.fin a, FF.ninf =>
    if a > 0 then FF.ninf else if a < 0 then FF.pinf else FF.nan
  | FF.pinf, FF.fin a =>
    if a > 0 then FF.pinf else if a < 0 then FF.ninf else FF.nan
  | FF.ninf, FF.fin a =>
    if a > 0 then FF.ninf else if a < 0 then FF.pinf else FF.nan
  | FF.pinf, FF.pinf => FF.pinf
  | FF.pinf, FF.ninf => FF.ninf
  | FF.ninf, FF.pinf => FF.ninf
  | FF.ninf, FF.ninf => FF.pinf

/-- IEEE addition (no signed-zero subtleties at the inputs used here). -/
def FF.addF : FF → FF → FF
  | FF.nan, _ => FF.nan
  | _, FF.nan => FF.nan
  | FF.fin a, FF.fin b => FF.fin (a + b)
  | FF.fin _, FF.pinf => FF.pinf
  | FF.fin _, FF.ninf => FF.ninf
  | FF.pinf, FF.fin _ => FF.pinf
  | FF.ninf, FF.fin _ => FF.ninf
  | FF.pinf, FF.pinf => FF.pinf
  | FF.ninf, FF.ninf => FF.ninf
  | FF.pinf, FF.ninf => FF.nan
  | FF.ninf, FF.pinf => FF.nan

/-- IEEE division: a positive finite value divided by `+0` is `+∞` (this is
the `1.0 / 0.0` of `normalize`); NaN propagates. -/
def FF.divF : FF → FF → FF
  | FF.nan, _ => FF.nan
  | _, FF.nan => FF.nan
  | FF.fin a, FF.fin b =>
    if b = 0 then (if a > 0 then FF.pinf else if a < 0 then FF.ninf else FF.nan)
    else FF.fin (a / b)
  | FF.fin _, FF.pinf => FF.fin 0
  | FF.fin _, FF.ninf => FF.fin 0
  | FF.pinf, FF.fin a => if a < 0 then FF.ninf else FF.pinf
  | FF.ninf, FF.fin a => if a < 0 then FF.pinf else FF.ninf
  | _, FF.pinf => FF.nan
  | _, FF.ninf => FF.nan

/-- IEEE square root: `sqrt(+0) = +0`; negative gives NaN; finite values use
the rational square root (exact at 0, the only value this model is used at). -/
def FF.sqrtF : FF → FF
  | FF.nan => FF.nan
  | FF.pinf => FF.pinf
  | FF.ninf => FF.nan
  | FF.fin a => if a < 0 then FF.nan else FF.fin (ratSqrt a)

/-- `Vec3f` over the IEEE-style floats, for the zero-vector `normalize`
claim. -/
structure Vec3FF where
  x : FF
  y : FF
  z : FF
  deriving DecidableEq, Repr

/-- `Vec3f::length` over `FF`: `(x*x + y*y + z*z).sqrt()`. -/
def Vec3FF.lengthF (v : Vec3FF) : FF :=
  FF.sqrtF (FF.addF (FF.addF (FF.mul v.x v.x) (FF.mul v.y v.y)) (FF.mul v.z v.z))

/-- `Vec3f::scale` over `FF`. -/
def Vec3FF.scaleF (v : Vec3FF) (k : FF) : Vec3FF :=
  ⟨FF.mul v.x k, FF.mul v.y k, FF.mul v.z k⟩

/-- `Vec3f::normalize` over `FF`: `self.scale(1.0 / self.length())`, exactly
as in src/math.rs - there is no zero-length guard. -/
def Vec3FF.normalizeF (v : Vec3FF) : Vec3FF :=
  v.scaleF (FF.divF (FF.fin 1) v.lengthF)

/-- C6 counterexample: `normalize` of the zero vector silently produces NaN:
the length is `+0`, `1.0 / 0.0` evaluates to `+∞`, and each component becomes
`0 * +∞ = NaN`. There is no documented degenerate path in the code. -/
theorem normalize_zero_vector_nan_cex :
    (Vec3FF.normalizeF ⟨FF.fin 0, FF.fin 0, FF.fin 0⟩).x = FF.nan := by
  with_unfolding_all rfl

/-- C6 (amended): `Vec3f::normalize` has no zero-length guard: on the zero
vector it computes length `+0`, divides `1.0` by it yielding `+∞`, and
multiplies each zero component by `+∞`, so all three components come out NaN -
the IEEE outcome of the unguarded `self.scale(1.0 / self.length())`. -/
theorem normalize_zero_vector_nan :
    Vec3FF.lengthF ⟨FF.fin 0, FF.fin 0, FF.fin 0⟩ = FF.fin 0
    ∧ FF.divF (FF.fin 1) (FF.fin 0) = FF.pinf
    ∧ Vec3FF.normalizeF ⟨FF.fin 0, FF.fin 0, FF.fin 0⟩ =
        ⟨FF.nan, FF.nan, FF.nan⟩ := by
  refine ⟨by with_unfolding_all rfl, by with_unfolding_all rfl,
    by with_unfolding_all rfl⟩
